import Mathlib

/-!
# bugreportz: connection retry and streaming relay

A shallow embedding of `cmds/bugreportz/bugreportz.cpp`.

The program talks to its environment only through library and system calls
(`getopt`, `property_set`, `socket_local_client`, `sleep`, `setsockopt`,
`read`, `write`, `close`, `printf`, `fprintf`).  The answers of the
environment are collected in `Env`; the calls the program makes are recorded,
in call order, in the `trace` of the `State`.  The two unbounded loops
(`while (1)` and the `do ... while` inside it) take a fuel argument; when the
fuel runs out the control result is `Ctl.out_of_fuel` and the state holds the
trace produced so far, so that a property of all traces is also a property of
every unfinished run.

`TEMP_FAILURE_RETRY` is a macro of the C library and not part of the
repository: `Env.read` and `Env.write` give the value of the whole expression
`TEMP_FAILURE_RETRY(read(...))`, `TEMP_FAILURE_RETRY(write(...))`.  The values
of `EAGAIN` and `ETIMEDOUT` are fields of `Env`.  The two output streams are
kept apart: `Event.printf` is a text sent to the standard output stream,
`Event.fprintf_stderr` a text sent to the standard error, `Event.write` a
`write` on the descriptor of the standard output.
-/

namespace Bugreportz

/-- A byte of the transfer buffer (`char`). -/
abbrev Byte := UInt8

/-- A value of `errno`. -/
abbrev Errno := Nat

/-- Modelled from the spec: `EXIT_SUCCESS` of `stdlib.h`, which is not part of
the repository; the spec gives "success (0)". -/
def EXIT_SUCCESS : Int := 0

/-- Modelled from the spec: `EXIT_FAILURE` of `stdlib.h`, which is not part of
the repository; the spec gives "failure (non-zero)", the C library uses 1. -/
def EXIT_FAILURE : Int := 1

/-- The size of the transfer buffer, `sizeof(buffer)` for `char buffer[65536]`. -/
def BUFFER_SIZE : Nat := 65536

/-- Result of one `socket_local_client` call: `-1` with `errno` set, or a
descriptor. -/
inductive ConnectResult where
  | error (e : Errno)
  | fd (n : Nat)
  deriving DecidableEq, Repr

/-- Result of the expression `TEMP_FAILURE_RETRY(read(s, buffer, sizeof(buffer)))`:
`-1` with `errno` set, or the bytes placed at the start of `buffer` (their
number is the value returned; no bytes is the return value 0). -/
inductive ReadResult where
  | error (e : Errno)
  | data (bytes : List Byte)
  deriving DecidableEq, Repr

/-- Result of the expression `TEMP_FAILURE_RETRY(write(STDOUT_FILENO, p, n))`:
`-1` with `errno` set, or the number of bytes the sink accepted. -/
inductive WriteResult where
  | error (e : Errno)
  | accepted (k : Nat)
  deriving DecidableEq, Repr

/-- Result of the `setsockopt` call: `-1` with `errno` set, or success. -/
inductive SockoptResult where
  | error (e : Errno)
  | ok
  deriving DecidableEq, Repr

/-- The `int` returned by `socket_local_client`. -/
def ConnectResult.ret : ConnectResult → Int
  | .error _ => -1
  | .fd n => (n : Int)

/-- The `ssize_t` returned by the read expression (`bytes_read`). -/
def ReadResult.ret : ReadResult → Int
  | .error _ => -1
  | .data bytes => (bytes.length : Int)

/-- The content of `buffer` after the read expression: the bytes received. -/
def ReadResult.buffer : ReadResult → List Byte
  | .error _ => []
  | .data bytes => bytes

/-- The `ssize_t` returned by the write expression (`bytes_written`). -/
def WriteResult.ret : WriteResult → Int
  | .error _ => -1
  | .accepted k => (k : Int)

/-- The `int` returned by `setsockopt`. -/
def SockoptResult.ret : SockoptResult → Int
  | .error _ => -1
  | .ok => 0

/-- The texts the program prints; the `%s` of `strerror(errno)` is kept as the
value of `errno`, the `%zd` arguments as integers. -/
inductive Message where
  /-- The text of `show_usage`. -/
  | usage
  /-- The text of `show_version` (`VERSION`). -/
  | version
  /-- Text "Failed to connect to dumpstatez service: %s\n" -/
  | connect_failed (e : Errno)
  /-- Text "WARNING: Cannot set socket timeout: %s\n" -/
  | timeout_warning (e : Errno)
  /-- Text "\nBugreport read terminated abnormally (%s).\n" -/
  | read_abnormal (e : Errno)
  /-- Text "Failed to write data to stdout: read %zd, trying to send %zd (%s)\n" -/
  | write_failed (bytes_read bytes_to_send : Int) (e : Errno)
  deriving DecidableEq, Repr

/-- One call made by the program. -/
inductive Event where
  /-- A call `fprintf(stderr, ...)`. -/
  | fprintf_stderr (m : Message)
  /-- A call `printf(...)`: the text goes to the standard output stream. -/
  | printf (m : Message)
  /-- The call `property_set("ctl.start", "dumpstatez")`. -/
  | property_set
  /-- A call `socket_local_client("dumpstate", ...)` and its result. -/
  | socket_local_client (r : ConnectResult)
  /-- A call `sleep(secs)`. -/
  | sleep (secs : Nat)
  /-- The call `setsockopt(s, SOL_SOCKET, SO_RCVTIMEO, &tv, sizeof(tv))` with
  `tv.tv_sec = secs`, and its result. -/
  | setsockopt (s : Int) (secs : Nat) (r : SockoptResult)
  /-- A call `read(s, buffer, sizeof(buffer))` and its result. -/
  | read (s : Int) (r : ReadResult)
  /-- A call `write(STDOUT_FILENO, buffer + off, count)`: the bytes offered
  (`data`, the `count` bytes of the buffer from `off`) and the result. -/
  | write (count : Int) (data : List Byte) (r : WriteResult)
  /-- The call `close(s)`. -/
  | close (s : Int)
  deriving DecidableEq, Repr

/-- The answers of the environment, and the platform constants the program
uses that the repository does not define. -/
structure Env where
  /-- Constant `EAGAIN` of `errno.h`. -/
  EAGAIN : Errno
  /-- Constant `ETIMEDOUT` of `errno.h`. -/
  ETIMEDOUT : Errno
  /-- The argument count `argc`. -/
  argc : Int
  /-- Value of the first `getopt(argc, argv, "vh")` call. -/
  getopt : Int
  /-- Value of `optind` after that call. -/
  optind : Int
  /-- Whether `argv[optind]` is `nullptr` after that call. -/
  argv_optind_null : Bool
  /-- Result of the `i`-th `socket_local_client` call, `i` counted from 0. -/
  socket_local_client : Nat → ConnectResult
  /-- Result of the `setsockopt` call. -/
  setsockopt : SockoptResult
  /-- Result of the `i`-th read expression, `i` counted from 0. -/
  read : Nat → ReadResult
  /-- Result of the `i`-th write expression, `i` counted from 0, offered the
  bytes `data`. -/
  write : Nat → List Byte → WriteResult

/-- The state of the process as far as the program observes it. -/
structure State where
  /-- Current value of `errno`. -/
  errno : Errno
  /-- Number of read expressions evaluated so far. -/
  nread : Nat
  /-- Number of write expressions evaluated so far. -/
  nwrite : Nat
  /-- The calls made so far, oldest first. -/
  trace : List Event
  deriving DecidableEq, Repr

/-- The state at the start of `main`. -/
def State.init : State := ⟨0, 0, 0, []⟩

/-- Record a call. -/
def State.emit (st : State) (e : Event) : State :=
  { st with trace := st.trace ++ [e] }

/-- How a piece of `main` hands control on. -/
inductive Ctl where
  /-- The fuel ran out while a loop was still running. -/
  | out_of_fuel
  /-- Control reaches the statement after the piece. -/
  | next
  /-- The function `main` has executed `return code`. -/
  | ret (code : Int)
  deriving DecidableEq, Repr

/-- The function `show_usage`. -/
def show_usage (st : State) : State :=
  st.emit (.fprintf_stderr .usage)

/-- The function `show_version`. -/
def show_version (st : State) : State :=
  st.emit (.fprintf_stderr .version)

/-- Lines 43-64 of `main`, the argument parsing.  Every branch of the `switch`
returns, so the `while` around `getopt` evaluates `getopt` once. -/
def parse_args (env : Env) (st : State) : Ctl × State :=
  if env.argc > 1 then
    let c := env.getopt
    if c != -1 then
      if c == 104 then (.ret EXIT_SUCCESS, show_usage st)        -- case 'h'
      else if c == 118 then (.ret EXIT_SUCCESS, show_version st) -- case 'v'
      else (.ret EXIT_FAILURE, show_usage st)
    else if env.optind > 1 || !env.argv_optind_null then
      (.ret EXIT_FAILURE, show_usage st)
    else (.next, st)
  else (.next, st)

/-- Lines 73-80 of `main`:
`for (int i = 0; i < 20; i++) { s = socket_local_client(...); if (s >= 0) break; sleep(1); }`.
The first argument is the number of iterations left, `20 - i`; the result is
the value of `s` after the loop. -/
def connect_loop (env : Env) : Nat → Nat → Int → State → Int × State
  | 0, _, s, st => (s, st)
  | left + 1, i, _, st =>
    let r := env.socket_local_client i
    let s := r.ret
    let st := match r with
      | .error e => { st with errno := e }
      | .fd _ => st
    let st := st.emit (.socket_local_client r)
    if s ≥ 0 then (s, st)
    else connect_loop env left (i + 1) s (st.emit (.sleep 1))

/-- The `count` bytes of `buffer` from offset `off`: what
`write(STDOUT_FILENO, buffer + off, count)` offers to the sink. -/
def slice (buffer : List Byte) (off count : Int) : List Byte :=
  (buffer.drop off.toNat).take count.toNat

/-- Lines 115-126 of `main`, the `do ... while` loop that sends the chunk in
`buffer` (of `bytes_read` bytes) to the standard output; entered with
`bytes_to_send = bytes_read`. -/
def write_loop (env : Env) (buffer : List Byte) (bytes_read : Int) :
    Nat → Int → State → Ctl × State
  | 0, _, st => (.out_of_fuel, st)
  | fuel + 1, bytes_to_send, st =>
    let data := slice buffer (bytes_read - bytes_to_send) bytes_to_send
    let r := env.write st.nwrite data
    let bytes_written := r.ret
    let st := match r with
      | .error e => { st with errno := e }
      | .accepted _ => st
    let st := { st with nwrite := st.nwrite + 1 }.emit (.write bytes_to_send data r)
    if bytes_written == -1 then
      (.ret EXIT_FAILURE, st.emit (.printf (.write_failed bytes_read bytes_to_send st.errno)))
    else
      let bytes_to_send := bytes_to_send - bytes_written
      if bytes_written != 0 && bytes_to_send > 0 then
        write_loop env buffer bytes_read fuel bytes_to_send st
      else (.next, st)

/-- Lines 97-127 of `main`, the `while (1)` loop that reads from the socket
`s` and sends what it read to the standard output. -/
def read_loop (env : Env) (s : Int) : Nat → State → Ctl × State
  | 0, st => (.out_of_fuel, st)
  | fuel + 1, st =>
    let r := env.read st.nread
    let bytes_read := r.ret
    let st := match r with
      | .error e => { st with errno := e }
      | .data _ => st
    let st := { st with nread := st.nread + 1 }.emit (.read s r)
    if bytes_read == 0 then (.next, st)
    else if bytes_read == -1 then
      let st := if st.errno == env.EAGAIN then { st with errno := env.ETIMEDOUT } else st
      (.next, st.emit (.printf (.read_abnormal st.errno)))
    else
      match write_loop env r.buffer bytes_read fuel bytes_read st with
      | (.next, st) => read_loop env s fuel st
      | res => res

/-- Lines 66-130 of `main`: start the service, connect, set the timeout,
relay, close.  The variable `s` is not initialised before the connection loop;
the loop body runs at least once and assigns it, so the value given here (0)
is never read. -/
def relay (env : Env) (fuel : Nat) (st : State) : Ctl × State :=
  let st := st.emit .property_set
  let (s, st) := connect_loop env 20 0 0 st
  if s == -1 then
    (.ret EXIT_FAILURE, st.emit (.printf (.connect_failed st.errno)))
  else
    let r := env.setsockopt
    let st := match r with
      | .error e => { st with errno := e }
      | .ok => st
    let st := st.emit (.setsockopt s (10 * 60) r)
    let st := if r.ret == -1 then st.emit (.printf (.timeout_warning st.errno)) else st
    match read_loop env s fuel st with
    | (.next, st) => (.ret EXIT_SUCCESS, st.emit (.close s))
    | res => res

/-- The function `main`. -/
def main (env : Env) (fuel : Nat) : Ctl × State :=
  match parse_args env State.init with
  | (.next, st) => relay env fuel st
  | res => res

/-! ## Observations on a trace -/

/-- The bytes the standard output accepted through `write` calls, in call
order: of the bytes offered to a call, the first `k` when it returned `k`. -/
def sinkBytes : List Event → List Byte
  | [] => []
  | .write _ data (.accepted k) :: t => data.take k ++ sinkBytes t
  | _ :: t => sinkBytes t

/-- The texts printed with `printf`, in call order. -/
def printed : List Event → List Message
  | [] => []
  | .printf m :: t => m :: printed t
  | _ :: t => printed t

/-- The texts printed with `fprintf(stderr, ...)`, in call order. -/
def printedStderr : List Event → List Message
  | [] => []
  | .fprintf_stderr m :: t => m :: printedStderr t
  | _ :: t => printedStderr t

/-- The event is a `socket_local_client` call. -/
def Event.isConnect : Event → Bool
  | .socket_local_client _ => true
  | _ => false

/-- The event is a `read` call. -/
def Event.isRead : Event → Bool
  | .read _ _ => true
  | _ => false

/-- The event is a `write` call. -/
def Event.isWrite : Event → Bool
  | .write _ _ _ => true
  | _ => false

/-- The event is a `close` call. -/
def Event.isClose : Event → Bool
  | .close _ => true
  | _ => false

/-! ## Notions used to state the properties -/

/-- The calls of `k` failed connection attempts from attempt `i` on, each
followed by its `sleep(1)`. -/
def failed_attempts (env : Env) : Nat → Nat → List Event
  | 0, _ => []
  | k + 1, i => .socket_local_client (env.socket_local_client i) :: .sleep 1 ::
      failed_attempts env k (i + 1)

/-- The value of `errno` after `k` connection attempts from attempt `i` on,
when it was `e0` before. -/
def errno_after (env : Env) : Nat → Nat → Errno → Errno
  | 0, _, e0 => e0
  | k + 1, i, e0 =>
    errno_after env k (i + 1) (match env.socket_local_client i with
      | .error e => e
      | .fd _ => e0)

/-- A call inside the relay loop after which the loop goes on: a `write` that
returned a count, or a `read` on `s` that returned at least one byte. -/
def Benign (s : Int) (ev : Event) : Prop :=
  (∃ n d k, ev = .write n d (.accepted k)) ∨ (∃ d, d ≠ [] ∧ ev = .read s (.data d))

/-- A call that ends the relay loop: a failed `write`, a failed `read`, or a
`read` of zero bytes. -/
def Event.isTerminal : Event → Bool
  | .write _ _ (.error _) => true
  | .read _ (.error _) => true
  | .read _ (.data []) => true
  | _ => false

/-- How the relay loop was left. -/
inductive Ending where
  /-- The loop was still running when the fuel ran out. -/
  | running
  /-- A `read` returned zero bytes. -/
  | eof
  /-- A `read` failed with `errno = e`. -/
  | read_error (e : Errno)
  /-- A `write` of `n` bytes `d` failed with `errno = e`, in the chunk of
  `bytes_read` bytes. -/
  | write_error (bytes_read n : Int) (d : List Byte) (e : Errno)

/-- The last calls of the relay loop. -/
def Ending.events (env : Env) (s : Int) : Ending → List Event
  | .running => []
  | .eof => [.read s (.data [])]
  | .read_error e => [.read s (.error e),
      .printf (.read_abnormal (if e = env.EAGAIN then env.ETIMEDOUT else e))]
  | .write_error bytes_read n d e => [.write n d (.error e),
      .printf (.write_failed bytes_read n e)]

/-- The control result of the relay loop. -/
def Ending.ctl : Ending → Ctl
  | .running => .out_of_fuel
  | .eof => .next
  | .read_error _ => .next
  | .write_error _ _ _ _ => .ret EXIT_FAILURE

/-- What `main` does after the relay loop: its result and its calls. -/
def Ending.after (s : Int) : Ending → Ctl × List Event
  | .running => (.out_of_fuel, [])
  | .eof => (.ret EXIT_SUCCESS, [.close s])
  | .read_error _ => (.ret EXIT_SUCCESS, [.close s])
  | .write_error _ _ _ _ => (.ret EXIT_FAILURE, [])

/-- Attempt `k` (counted from 0) is the first connection attempt that
succeeds, among the 20 the program makes, and yields the descriptor `n`. -/
def FirstSuccess (env : Env) (k n : Nat) : Prop :=
  k < 20 ∧ (∀ j, j < k → ∃ e, env.socket_local_client j = .error e) ∧
    env.socket_local_client k = .fd n

/-- All 20 connection attempts fail. -/
def AllFail (env : Env) : Prop :=
  ∀ j, j < 20 → ∃ e, env.socket_local_client j = .error e

/-- The calls of `main` before the relay loop when attempt `k` is the first to
succeed, with descriptor `n`. -/
def setup (env : Env) (k n : Nat) : List Event :=
  .property_set :: failed_attempts env k 0 ++
    [.socket_local_client (.fd n), .setsockopt n (10 * 60) env.setsockopt] ++
    (match env.setsockopt with
      | .error e => [.printf (.timeout_warning e)]
      | .ok => [])

/-- The value of `errno` before the relay loop when attempt `k` is the first
to succeed. -/
def setup_errno (env : Env) (k : Nat) (e0 : Errno) : Errno :=
  match env.setsockopt with
  | .error e => e
  | .ok => errno_after env k 0 e0

/-- A call made before the relay loop starts. -/
def Event.isSetup : Event → Bool
  | .property_set => true
  | .socket_local_client _ => true
  | .sleep _ => true
  | .setsockopt _ _ _ => true
  | .printf (.timeout_warning _) => true
  | _ => false

/-- The results of the `socket_local_client` calls, in call order. -/
def connects : List Event → List ConnectResult
  | [] => []
  | .socket_local_client r :: t => r :: connects t
  | _ :: t => connects t

/-- The sink never fails and never accepts more than it is offered. -/
def SinkAccepts (env : Env) : Prop :=
  ∀ i d, d ≠ [] → ∃ k, env.write i d = .accepted k ∧ k ≤ d.length

/-- The sink never fails and accepts at least one byte, and at most the bytes
offered, on every call that offers at least one byte. -/
def SinkGood (env : Env) : Prop :=
  ∀ i d, d ≠ [] → ∃ k, env.write i d = .accepted k ∧ 1 ≤ k ∧ k ≤ d.length

/-- The event is a `fprintf(stderr, ...)` call. -/
def Event.isStderr : Event → Bool
  | .fprintf_stderr _ => true
  | _ => false

/-! ## Concrete environments -/

/-- A service that listens from the first attempt on, a stream that is closed
at once, and a sink that accepts all it is offered. -/
def env_idle : Env where
  EAGAIN := 11
  ETIMEDOUT := 110
  argc := 1
  getopt := -1
  optind := 1
  argv_optind_null := true
  socket_local_client := fun _ => .fd 3
  setsockopt := .ok
  read := fun _ => .data []
  write := fun _ d => .accepted d.length

/-- The service never listens: every connection attempt fails. -/
def env_no_service : Env :=
  { env_idle with socket_local_client := fun _ => .error 111 }

/-- Two chunks are read, then the third `read` fails with `EAGAIN`. -/
def env_read_timeout : Env :=
  { env_idle with
    read := fun i => if i = 0 then .data [1, 2] else if i = 1 then .data [3] else .error 11 }

/-- One chunk is read and the first `write` fails. -/
def env_write_fails : Env :=
  { env_idle with
    read := fun i => if i = 0 then .data [1, 2, 3] else .data []
    write := fun _ _ => .error 32 }

/-- One chunk is read; the sink accepts nothing on its first call and all it is
offered on every later call. -/
def env_zero_accept : Env :=
  { env_idle with
    read := fun i => if i = 0 then .data [1, 2, 3] else .data []
    write := fun i d => if i = 0 then .accepted 0 else .accepted d.length }

/-- The third connection attempt succeeds; chunks of 1024 and 2048 bytes are
read, then zero bytes; the sink accepts at most 1000 bytes per call. -/
def env_two_chunks : Env :=
  { env_idle with
    socket_local_client := fun i => if i < 2 then .error 111 else .fd 3
    read := fun i =>
      if i = 0 then .data (List.replicate 1024 0xAA)
      else if i = 1 then .data (List.replicate 2048 0xBB)
      else .data []
    write := fun _ d => .accepted (min d.length 1000) }

/-! ## One iteration of each loop -/

theorem write_loop_error (env : Env) (buffer : List Byte) (bytes_read : Int) (fuel : Nat)
    (b : Int) (st : State) (e : Errno)
    (h : env.write st.nwrite (slice buffer (bytes_read - b) b) = .error e) :
    write_loop env buffer bytes_read (fuel + 1) b st =
      (.ret EXIT_FAILURE,
        ⟨e, st.nread, st.nwrite + 1,
          st.trace ++ [.write b (slice buffer (bytes_read - b) b) (.error e),
            .printf (.write_failed bytes_read b e)]⟩) := by
  simp [write_loop, h, WriteResult.ret, State.emit]

theorem write_loop_continue (env : Env) (buffer : List Byte) (bytes_read : Int) (fuel : Nat)
    (b : Int) (st : State) (k : Nat)
    (h : env.write st.nwrite (slice buffer (bytes_read - b) b) = .accepted k)
    (hk : k ≠ 0) (hb : b - k > 0) :
    write_loop env buffer bytes_read (fuel + 1) b st =
      write_loop env buffer bytes_read fuel (b - k)
        ⟨st.errno, st.nread, st.nwrite + 1,
          st.trace ++ [.write b (slice buffer (bytes_read - b) b) (.accepted k)]⟩ := by
  have h1 : ((k : Int) == -1) = false := by
    simp
  simp [write_loop, h, WriteResult.ret, State.emit, h1, hk, hb]

theorem write_loop_stop (env : Env) (buffer : List Byte) (bytes_read : Int) (fuel : Nat)
    (b : Int) (st : State) (k : Nat)
    (h : env.write st.nwrite (slice buffer (bytes_read - b) b) = .accepted k)
    (hk : k = 0 ∨ b - k ≤ 0) :
    write_loop env buffer bytes_read (fuel + 1) b st =
      (.next, ⟨st.errno, st.nread, st.nwrite + 1,
          st.trace ++ [.write b (slice buffer (bytes_read - b) b) (.accepted k)]⟩) := by
  have h1 : ((k : Int) == -1) = false := by
    simp
  rcases hk with hk | hk
  · simp [write_loop, h, WriteResult.ret, State.emit, hk]
  · simp [write_loop, h, WriteResult.ret, State.emit, h1]
    intro _ h2
    omega

theorem read_loop_eof (env : Env) (s : Int) (fuel : Nat) (st : State)
    (h : env.read st.nread = .data []) :
    read_loop env s (fuel + 1) st =
      (.next, ⟨st.errno, st.nread + 1, st.nwrite, st.trace ++ [.read s (.data [])]⟩) := by
  simp [read_loop, h, ReadResult.ret, State.emit]

theorem read_loop_error (env : Env) (s : Int) (fuel : Nat) (st : State) (e : Errno)
    (h : env.read st.nread = .error e) :
    read_loop env s (fuel + 1) st =
      (.next, ⟨if e = env.EAGAIN then env.ETIMEDOUT else e, st.nread + 1, st.nwrite,
        st.trace ++ [.read s (.error e),
          .printf (.read_abnormal (if e = env.EAGAIN then env.ETIMEDOUT else e))]⟩) := by
  by_cases he : e = env.EAGAIN <;> simp [read_loop, h, ReadResult.ret, State.emit, he]

theorem read_loop_chunk (env : Env) (s : Int) (fuel : Nat) (st : State) (d : List Byte)
    (h : env.read st.nread = .data d) (hd : d ≠ []) :
    read_loop env s (fuel + 1) st =
      match write_loop env d d.length fuel d.length
          ⟨st.errno, st.nread + 1, st.nwrite, st.trace ++ [.read s (.data d)]⟩ with
      | (.next, st1) => read_loop env s fuel st1
      | res => res := by
  have h0 : ((d.length : Int) == 0) = false := by
    simp [hd]
  have h1 : ((d.length : Int) == -1) = false := by
    simp
  simp [read_loop, h, ReadResult.ret, ReadResult.buffer, State.emit, h0, h1]

/-! ## The connection loop -/

theorem connect_loop_fail (env : Env) (left i : Nat) (s0 : Int) (st : State)
    (h : ∀ j, j < left → ∃ e, env.socket_local_client (i + j) = .error e) :
    connect_loop env left i s0 st =
      (if left = 0 then s0 else -1,
        ⟨errno_after env left i st.errno, st.nread, st.nwrite,
          st.trace ++ failed_attempts env left i⟩) := by
  induction left generalizing i s0 st with
  | zero => simp [connect_loop, failed_attempts, errno_after]
  | succ left ih =>
    obtain ⟨e, he⟩ := h 0 (Nat.succ_pos _)
    simp only [Nat.add_zero] at he
    have h' : ∀ j, j < left → ∃ e, env.socket_local_client (i + 1 + j) = .error e := by
      intro j hj
      have := h (j + 1) (by omega)
      rwa [show i + (j + 1) = i + 1 + j by omega] at this
    simp only [connect_loop, he, ConnectResult.ret, State.emit]
    rw [if_neg (by decide), ih _ _ _ h']
    by_cases hl : left = 0
    · subst hl
      simp [failed_attempts, errno_after, he]
    · simp [failed_attempts, errno_after, he, hl]

theorem connect_loop_ok (env : Env) (left i k n : Nat) (s0 : Int) (st : State)
    (hk : k < left)
    (hfail : ∀ j, j < k → ∃ e, env.socket_local_client (i + j) = .error e)
    (hok : env.socket_local_client (i + k) = .fd n) :
    connect_loop env left i s0 st =
      ((n : Int),
        ⟨errno_after env k i st.errno, st.nread, st.nwrite,
          st.trace ++ failed_attempts env k i ++ [.socket_local_client (.fd n)]⟩) := by
  induction left generalizing i k s0 st with
  | zero => omega
  | succ left ih =>
    cases k with
    | zero =>
      simp only [Nat.add_zero] at hok
      simp [connect_loop, hok, ConnectResult.ret, State.emit, failed_attempts, errno_after]
    | succ k =>
      obtain ⟨e, he⟩ := hfail 0 (Nat.succ_pos _)
      simp only [Nat.add_zero] at he
      have hfail' : ∀ j, j < k → ∃ e, env.socket_local_client (i + 1 + j) = .error e := by
        intro j hj
        have := hfail (j + 1) (by omega)
        rwa [show i + (j + 1) = i + 1 + j by omega] at this
      have hok' : env.socket_local_client (i + 1 + k) = .fd n := by
        rwa [show i + (k + 1) = i + 1 + k by omega] at hok
      simp only [connect_loop, he, ConnectResult.ret, State.emit]
      rw [if_neg (by decide), ih (i + 1) k _ _ (by omega) hfail' hok']
      simp [failed_attempts, errno_after, he]

/-! ## The shape of a trace -/

theorem write_loop_shape (env : Env) (buffer : List Byte) (bytes_read : Int) (s : Int) :
    ∀ (fuel : Nat) (b : Int) (st : State),
      ∃ ws, (∀ ev ∈ ws, Benign s ev) ∧
        (write_loop env buffer bytes_read fuel b st).2.nread = st.nread ∧
        ((((write_loop env buffer bytes_read fuel b st).1 = .next ∨
            (write_loop env buffer bytes_read fuel b st).1 = .out_of_fuel) ∧
          (write_loop env buffer bytes_read fuel b st).2.trace = st.trace ++ ws) ∨
         ∃ n d e, (write_loop env buffer bytes_read fuel b st).1 = .ret EXIT_FAILURE ∧
          (write_loop env buffer bytes_read fuel b st).2.trace =
            st.trace ++ ws ++ (Ending.write_error bytes_read n d e).events env s) := by
  intro fuel
  induction fuel with
  | zero =>
    intro b st
    exact ⟨[], by simp, rfl, Or.inl ⟨Or.inr rfl, by simp [write_loop]⟩⟩
  | succ fuel ih =>
    intro b st
    cases h : env.write st.nwrite (slice buffer (bytes_read - b) b) with
    | error e =>
      rw [write_loop_error env buffer bytes_read fuel b st e h]
      exact ⟨[], by simp, rfl,
        Or.inr ⟨b, slice buffer (bytes_read - b) b, e, rfl, by simp [Ending.events]⟩⟩
    | accepted k =>
      by_cases hc : k ≠ 0 ∧ b - k > 0
      · rw [write_loop_continue env buffer bytes_read fuel b st k h hc.1 hc.2]
        obtain ⟨ws, hws, hn, hsh⟩ := ih (b - k) ⟨st.errno, st.nread, st.nwrite + 1,
          st.trace ++ [.write b (slice buffer (bytes_read - b) b) (.accepted k)]⟩
        refine ⟨.write b (slice buffer (bytes_read - b) b) (.accepted k) :: ws, ?_, hn, ?_⟩
        · intro ev hev
          rcases List.mem_cons.1 hev with rfl | hev
          · exact Or.inl ⟨_, _, _, rfl⟩
          · exact hws ev hev
        · rcases hsh with ⟨hc1, ht⟩ | ⟨n, d, e, hc1, ht⟩
          · exact Or.inl ⟨hc1, by simpa using ht⟩
          · exact Or.inr ⟨n, d, e, hc1, by simpa using ht⟩
      · have hc' : k = 0 ∨ b - k ≤ 0 := by
          by_cases hk : k = 0
          · exact Or.inl hk
          · exact Or.inr (by
              have := fun hb => hc ⟨hk, hb⟩
              omega)
        rw [write_loop_stop env buffer bytes_read fuel b st k h hc']
        refine ⟨[.write b (slice buffer (bytes_read - b) b) (.accepted k)], ?_, rfl,
          Or.inl ⟨Or.inl rfl, rfl⟩⟩
        intro ev hev
        rcases List.mem_singleton.1 hev with rfl
        exact Or.inl ⟨_, _, _, rfl⟩

theorem read_loop_shape (env : Env) (s : Int) :
    ∀ (fuel : Nat) (st : State),
      ∃ body ending, (∀ ev ∈ body, Benign s ev) ∧
        (read_loop env s fuel st).1 = Ending.ctl ending ∧
        (read_loop env s fuel st).2.trace = st.trace ++ body ++ ending.events env s ∧
        (0 < fuel → ∃ rest, body ++ ending.events env s = .read s (env.read st.nread) :: rest) ∧
        ((∀ ev ∈ body, Event.isRead ev = false) → body = []) := by
  intro fuel
  induction fuel with
  | zero =>
    intro st
    exact ⟨[], .running, by simp, rfl, by simp [read_loop, Ending.events], by simp,
      fun _ => rfl⟩
  | succ fuel ih =>
    intro st
    cases h : env.read st.nread with
    | error e =>
      rw [read_loop_error env s fuel st e h]
      exact ⟨[], .read_error e, by simp, rfl, by simp [Ending.events],
        fun _ => by simp [Ending.events, h], fun _ => rfl⟩
    | data d =>
      by_cases hd : d = []
      · subst hd
        rw [read_loop_eof env s fuel st h]
        exact ⟨[], .eof, by simp, rfl, by simp [Ending.events],
          fun _ => by simp [Ending.events, h], fun _ => rfl⟩
      · rw [read_loop_chunk env s fuel st d h hd]
        obtain ⟨ws, hws, hn, hsh⟩ := write_loop_shape env d d.length s fuel d.length
          ⟨st.errno, st.nread + 1, st.nwrite, st.trace ++ [.read s (.data d)]⟩
        have hben : ∀ ev ∈ Event.read s (.data d) :: ws, Benign s ev := by
          intro ev hev
          rcases List.mem_cons.1 hev with rfl | hev
          · exact Or.inr ⟨d, hd, rfl⟩
          · exact hws ev hev
        rcases hsh with ⟨hc1 | hc1, ht⟩ | ⟨n, d', e, hc1, ht⟩
        · -- the chunk was sent: the loop goes on
          generalize write_loop env d d.length fuel d.length
            ⟨st.errno, st.nread + 1, st.nwrite, st.trace ++ [.read s (.data d)]⟩ = r at *
          obtain ⟨c, st1⟩ := r
          simp only at hc1 ht hn
          subst hc1
          simp only
          obtain ⟨body, ending, hb, hctl, htr, _⟩ := ih st1
          refine ⟨Event.read s (.data d) :: ws ++ body, ending, ?_, hctl, ?_,
            fun _ => by simp [h],
            fun hr => absurd (hr (Event.read s (.data d)) (by simp)) (by simp [Event.isRead])⟩
          · intro ev hev
            rcases List.mem_append.1 hev with hev | hev
            · exact hben ev hev
            · exact hb ev hev
          · rw [htr, ht]
            simp
        · generalize write_loop env d d.length fuel d.length
            ⟨st.errno, st.nread + 1, st.nwrite, st.trace ++ [.read s (.data d)]⟩ = r at *
          obtain ⟨c, st1⟩ := r
          simp only at hc1 ht hn
          subst hc1
          exact ⟨Event.read s (.data d) :: ws, .running, hben, rfl,
            by simp [ht, Ending.events], fun _ => by simp [Ending.events, h],
            fun hr => absurd (hr (Event.read s (.data d)) (by simp)) (by simp [Event.isRead])⟩
        · generalize write_loop env d d.length fuel d.length
            ⟨st.errno, st.nread + 1, st.nwrite, st.trace ++ [.read s (.data d)]⟩ = r at *
          obtain ⟨c, st1⟩ := r
          simp only at hc1 ht hn
          subst hc1
          exact ⟨Event.read s (.data d) :: ws, .write_error d.length n d' e, hben, rfl,
            by simp [ht], fun _ => by simp [h],
            fun hr => absurd (hr (Event.read s (.data d)) (by simp)) (by simp [Event.isRead])⟩

theorem first_success_or_all_fail (env : Env) (N : Nat) :
    (∀ j, j < N → ∃ e, env.socket_local_client j = .error e) ∨
    ∃ k n, k < N ∧ (∀ j, j < k → ∃ e, env.socket_local_client j = .error e) ∧
      env.socket_local_client k = .fd n := by
  induction N with
  | zero => exact Or.inl (fun j hj => absurd hj (Nat.not_lt_zero j))
  | succ N ih =>
    rcases ih with hall | ⟨k, n, hk, hf, hok⟩
    · cases h : env.socket_local_client N with
      | error e =>
        refine Or.inl (fun j hj => ?_)
        rcases Nat.lt_succ_iff_lt_or_eq.1 hj with hj | rfl
        · exact hall j hj
        · exact ⟨e, h⟩
      | fd n => exact Or.inr ⟨N, n, Nat.lt_succ_self N, hall, h⟩
    · exact Or.inr ⟨k, n, Nat.lt_succ_of_lt hk, hf, hok⟩

theorem connected_or_not (env : Env) : AllFail env ∨ ∃ k n, FirstSuccess env k n :=
  first_success_or_all_fail env 20

theorem main_eq_relay (env : Env) (fuel : Nat) (hargc : env.argc ≤ 1) :
    main env fuel = relay env fuel State.init := by
  have h : ¬ env.argc > 1 := by omega
  simp [main, parse_args, h]

theorem relay_fail (env : Env) (fuel : Nat) (st : State) (h : AllFail env) :
    relay env fuel st =
      (.ret EXIT_FAILURE, ⟨errno_after env 20 0 st.errno, st.nread, st.nwrite,
        st.trace ++ .property_set :: failed_attempts env 20 0 ++
          [.printf (.connect_failed (errno_after env 20 0 st.errno))]⟩) := by
  have h' : ∀ j, j < 20 → ∃ e, env.socket_local_client (0 + j) = .error e := by
    intro j hj
    simpa using h j hj
  simp [relay, connect_loop_fail env 20 0 0 _ h', State.emit]

theorem relay_ok (env : Env) (fuel : Nat) (st : State) (k n : Nat) (h : FirstSuccess env k n) :
    relay env fuel st =
      match read_loop env n fuel ⟨setup_errno env k st.errno, st.nread, st.nwrite,
          st.trace ++ setup env k n⟩ with
      | (.next, st1) => (.ret EXIT_SUCCESS, st1.emit (.close n))
      | res => res := by
  obtain ⟨hk, hf, hok⟩ := h
  have hf' : ∀ j, j < k → ∃ e, env.socket_local_client (0 + j) = .error e := by
    intro j hj
    simpa using hf j hj
  have hok' : env.socket_local_client (0 + k) = .fd n := by
    simpa using hok
  have hn : ((n : Int) == -1) = false := by
    simp
  cases hs : env.setsockopt <;>
    simp [relay, connect_loop_ok env 20 0 k n 0 _ hk hf' hok', State.emit, hn, hs,
      SockoptResult.ret, setup, setup_errno]

theorem relay_shape (env : Env) (fuel : Nat) (k n : Nat) (h : FirstSuccess env k n) :
    ∃ body ending, (∀ ev ∈ body, Benign n ev) ∧
      (relay env fuel State.init).1 = (Ending.after n ending).1 ∧
      (relay env fuel State.init).2.trace =
        setup env k n ++ body ++ ending.events env n ++ (Ending.after n ending).2 ∧
      (0 < fuel → ∃ rest, body ++ ending.events env n = .read n (env.read 0) :: rest) ∧
      ((∀ ev ∈ body, Event.isRead ev = false) → body = []) := by
  rw [relay_ok env fuel _ k n h]
  obtain ⟨body, ending, hb, hctl, htr, hfirst, hhead⟩ := read_loop_shape env n fuel
    ⟨setup_errno env k State.init.errno, State.init.nread, State.init.nwrite,
      State.init.trace ++ setup env k n⟩
  refine ⟨body, ending, hb, ?_, ?_, hfirst, hhead⟩
  · generalize read_loop env n fuel _ = r at *
    obtain ⟨c, st1⟩ := r
    simp only at hctl
    subst hctl
    cases ending <;> rfl
  · generalize read_loop env n fuel _ = r at *
    obtain ⟨c, st1⟩ := r
    simp only at hctl htr
    subst hctl
    cases ending <;> simp [Ending.ctl, Ending.after, State.emit, htr, State.init]

theorem relay_fail_init (env : Env) (fuel : Nat) (h : AllFail env) :
    relay env fuel State.init =
      (.ret EXIT_FAILURE, ⟨errno_after env 20 0 0, 0, 0,
        .property_set :: failed_attempts env 20 0 ++
          [.printf (.connect_failed (errno_after env 20 0 0))]⟩) := by
  rw [relay_fail env fuel _ h]
  simp [State.init]

theorem main_cases (env : Env) (fuel : Nat) :
    main env fuel = relay env fuel State.init ∨
    ∃ c m, main env fuel = (.ret c, ⟨0, 0, 0, [.fprintf_stderr m]⟩) := by
  by_cases h : env.argc > 1
  · by_cases h1 : env.getopt = -1
    · by_cases h2 : env.optind > 1 ∨ env.argv_optind_null = false
      · right
        exact ⟨EXIT_FAILURE, .usage, by
          rcases h2 with h2 | h2 <;>
            simp [main, parse_args, h, h1, h2, show_usage, State.emit, State.init]⟩
      · left
        have h3 : ¬ env.optind > 1 := fun h3 => h2 (Or.inl h3)
        have h4 : env.argv_optind_null = true := by
          cases h5 : env.argv_optind_null
          · exact absurd (Or.inr h5) h2
          · rfl
        simp [main, parse_args, h, h1, h3, h4]
    · right
      by_cases h104 : env.getopt = 104
      · exact ⟨EXIT_SUCCESS, .usage, by
          simp [main, parse_args, h, h104, show_usage, State.emit, State.init]⟩
      · by_cases h118 : env.getopt = 118
        · exact ⟨EXIT_SUCCESS, .version, by
            simp [main, parse_args, h, h118, show_version, State.emit, State.init]⟩
        · exact ⟨EXIT_FAILURE, .usage, by
            simp [main, parse_args, h, h1, h104, h118, show_usage, State.emit, State.init]⟩
  · left
    simp [main, parse_args, h]

/-! ## Kinds of calls -/

theorem failed_attempts_isSetup (env : Env) (k i : Nat) :
    ∀ ev ∈ failed_attempts env k i, ev.isSetup = true := by
  induction k generalizing i with
  | zero => simp [failed_attempts]
  | succ k ih =>
    intro ev hev
    simp only [failed_attempts, List.mem_cons] at hev
    rcases hev with rfl | rfl | hev
    · rfl
    · rfl
    · exact ih _ ev hev

theorem setup_isSetup (env : Env) (k n : Nat) : ∀ ev ∈ setup env k n, ev.isSetup = true := by
  intro ev hev
  simp only [setup, List.mem_cons, List.mem_append] at hev
  rcases hev with ((rfl | hev) | hev) | hev
  · rfl
  · exact failed_attempts_isSetup env k 0 ev hev
  · rcases hev with rfl | rfl | hev
    · rfl
    · rfl
    · simp at hev
  · cases hs : env.setsockopt <;> rw [hs] at hev <;> simp at hev
    subst hev
    rfl

theorem isSetup_not_terminal (ev : Event) (h : ev.isSetup = true) : ev.isTerminal = false := by
  cases ev <;> first | rfl | (simp [Event.isSetup] at h)

theorem benign_not_terminal (s : Int) (ev : Event) (h : Benign s ev) :
    ev.isTerminal = false := by
  rcases h with ⟨n, d, k, rfl⟩ | ⟨d, hd, rfl⟩
  · rfl
  · cases d with
    | nil => exact absurd rfl hd
    | cons a d => rfl

theorem split_unique {α : Type} (P : α → Bool) (A B pre post : List α) (x y : α)
    (hA : ∀ a ∈ A, P a = false) (hB : ∀ b ∈ B, P b = false) (hy : P y = true)
    (h : A ++ x :: B = pre ++ y :: post) : pre = A ∧ y = x ∧ post = B := by
  induction A generalizing pre with
  | nil =>
    cases pre with
    | nil =>
      simp only [List.nil_append, List.cons.injEq] at h
      exact ⟨rfl, h.1.symm, h.2.symm⟩
    | cons p pre =>
      simp only [List.nil_append, List.cons_append, List.cons.injEq] at h
      have : y ∈ B := by
        rw [h.2]
        simp
      rw [hB y this] at hy
      cases hy
  | cons a A ih =>
    cases pre with
    | nil =>
      simp only [List.nil_append, List.cons_append, List.cons.injEq] at h
      rw [← h.1, hA a (List.mem_cons_self a A)] at hy
      cases hy
    | cons p pre =>
      simp only [List.cons_append, List.cons.injEq] at h
      obtain ⟨h1, h2, h3⟩ := ih pre (fun a' ha' => hA a' (List.mem_cons_of_mem a ha')) h.2
      exact ⟨by rw [h.1, h1], h2, h3⟩

theorem relay_terminal (env : Env) (fuel : Nat) (pre post : List Event) (y : Event)
    (ht : (relay env fuel State.init).2.trace = pre ++ y :: post)
    (hy : y.isTerminal = true) :
    ∃ k n ending body, FirstSuccess env k n ∧ (∀ ev ∈ body, Benign n ev) ∧
      pre = setup env k n ++ body ∧
      y :: post = Ending.events env n ending ++ (Ending.after n ending).2 ∧
      (relay env fuel State.init).1 = (Ending.after n ending).1 ∧
      ((∀ ev ∈ body, Event.isRead ev = false) → body = []) := by
  have hmem : y ∈ (relay env fuel State.init).2.trace := by
    rw [ht]
    simp
  rcases connected_or_not env with hall | ⟨k, n, hfs⟩
  · rw [relay_fail_init env fuel hall] at hmem
    simp only [List.mem_cons, List.mem_append, List.mem_singleton, List.not_mem_nil,
      or_false] at hmem
    rcases hmem with (rfl | hmem) | rfl
    · cases hy
    · rw [isSetup_not_terminal y (failed_attempts_isSetup env 20 0 y hmem)] at hy
      cases hy
    · cases hy
  · obtain ⟨body, ending, hb, hctl, htr, _, hhead⟩ := relay_shape env fuel k n hfs
    have hA : ∀ a ∈ setup env k n ++ body, Event.isTerminal a = false := by
      intro a ha
      rcases List.mem_append.1 ha with ha | ha
      · exact isSetup_not_terminal a (setup_isSetup env k n a ha)
      · exact benign_not_terminal n a (hb a ha)
    refine ⟨k, n, ending, body, hfs, hb, ?_, ?_, hctl, hhead⟩
    · rw [htr] at ht
      cases ending with
      | running =>
        rw [htr] at hmem
        simp only [Ending.events, Ending.after, List.append_nil] at hmem
        rw [hA y hmem] at hy
        cases hy
      | eof =>
        exact (split_unique Event.isTerminal (setup env k n ++ body) [.close n] pre post
          (.read n (.data [])) y hA (by simp [Event.isTerminal]) hy
          (by simpa [Ending.events, Ending.after] using ht)).1
      | read_error e =>
        exact (split_unique Event.isTerminal (setup env k n ++ body)
          [.printf (.read_abnormal (if e = env.EAGAIN then env.ETIMEDOUT else e)), .close n]
          pre post (.read n (.error e)) y hA (by simp [Event.isTerminal]) hy
          (by simpa [Ending.events, Ending.after] using ht)).1
      | write_error br c d e =>
        exact (split_unique Event.isTerminal (setup env k n ++ body)
          [.printf (.write_failed br c e)]
          pre post (.write c d (.error e)) y hA (by simp [Event.isTerminal]) hy
          (by simpa [Ending.events, Ending.after] using ht)).1
    · rw [htr] at ht
      cases ending with
      | running =>
        rw [htr] at hmem
        simp only [Ending.events, Ending.after, List.append_nil] at hmem
        rw [hA y hmem] at hy
        cases hy
      | eof =>
        obtain ⟨_, h2, h3⟩ := split_unique Event.isTerminal (setup env k n ++ body)
          [.close n] pre post
          (.read n (.data [])) y hA (by simp [Event.isTerminal]) hy
          (by simpa [Ending.events, Ending.after] using ht)
        simp [Ending.events, Ending.after, h2, h3]
      | read_error e =>
        obtain ⟨_, h2, h3⟩ := split_unique Event.isTerminal (setup env k n ++ body)
          [.printf (.read_abnormal (if e = env.EAGAIN then env.ETIMEDOUT else e)), .close n]
          pre post (.read n (.error e)) y hA (by simp [Event.isTerminal]) hy
          (by simpa [Ending.events, Ending.after] using ht)
        simp [Ending.events, Ending.after, h2, h3]
      | write_error br c d e =>
        obtain ⟨_, h2, h3⟩ := split_unique Event.isTerminal (setup env k n ++ body)
          [.printf (.write_failed br c e)]
          pre post (.write c d (.error e)) y hA (by simp [Event.isTerminal]) hy
          (by simpa [Ending.events, Ending.after] using ht)
        simp [Ending.events, Ending.after, h2, h3]

theorem main_terminal (env : Env) (fuel : Nat) (pre post : List Event) (y : Event)
    (ht : (main env fuel).2.trace = pre ++ y :: post)
    (hy : y.isTerminal = true) :
    ∃ k n ending body, FirstSuccess env k n ∧ (∀ ev ∈ body, Benign n ev) ∧
      pre = setup env k n ++ body ∧
      y :: post = Ending.events env n ending ++ (Ending.after n ending).2 ∧
      (main env fuel).1 = (Ending.after n ending).1 ∧
      ((∀ ev ∈ body, Event.isRead ev = false) → body = []) := by
  rcases main_cases env fuel with h | ⟨c, m, h⟩
  · rw [h] at ht ⊢
    exact relay_terminal env fuel pre post y ht hy
  · rw [h] at ht
    have hmem : y ∈ [Event.fprintf_stderr m] := by
      simp only at ht
      rw [ht]
      simp
    rw [List.mem_singleton.1 hmem] at hy
    cases hy

/-! ## Claims on the end of the relay loop -/

/-- C6: in every run of `main`, with any amount of fuel, a `write` call that
fails is followed by no further `read` and no further `write` call: the only
call after it is the `printf` of the diagnostic, and `main` has returned
`EXIT_FAILURE`, which is not the success status. -/
theorem write_failure_short_circuits (env : Env) (fuel : Nat) (pre post : List Event)
    (count : Int) (d : List Byte) (e : Errno)
    (h : (main env fuel).2.trace = pre ++ .write count d (.error e) :: post) :
    (main env fuel).1 = .ret EXIT_FAILURE ∧ EXIT_FAILURE ≠ EXIT_SUCCESS ∧
    (∃ bytes_read, post = [.printf (.write_failed bytes_read count e)]) ∧
    (∀ ev ∈ post, ev.isRead = false ∧ ev.isWrite = false) := by
  obtain ⟨k, n, ending, body, _, _, _, hpost, hctl, _⟩ :=
    main_terminal env fuel pre post _ h rfl
  cases ending with
  | running => simp [Ending.events, Ending.after] at hpost
  | eof => simp [Ending.events, Ending.after] at hpost
  | read_error e' => simp [Ending.events, Ending.after] at hpost
  | write_error br c d' e' =>
    simp only [Ending.events, Ending.after, List.append_nil, List.cons.injEq,
      Event.write.injEq, WriteResult.error.injEq] at hpost
    obtain ⟨⟨rfl, rfl, rfl⟩, rfl⟩ := hpost
    refine ⟨hctl, by decide, ⟨br, rfl⟩, ?_⟩
    intro ev hev
    rw [List.mem_singleton.1 hev]
    exact ⟨rfl, rfl⟩

/-- C8: in every run of `main`, with any amount of fuel, a `read` call that
returns zero bytes ends the relay loop: the only call after it is the `close`
of the socket, and `main` has returned `EXIT_SUCCESS`, which is 0.  When no
`read` call precedes it (the stream is empty) the run has no `write` call. -/
theorem end_of_stream_success (env : Env) (fuel : Nat) (pre post : List Event) (s : Int)
    (h : (main env fuel).2.trace = pre ++ .read s (.data []) :: post) :
    (main env fuel).1 = .ret EXIT_SUCCESS ∧ EXIT_SUCCESS = 0 ∧ post = [.close s] ∧
    ((∀ ev ∈ pre, ev.isRead = false) →
      ∀ ev ∈ (main env fuel).2.trace, ev.isWrite = false) := by
  obtain ⟨k, n, ending, body, _, _, hpre, hpost, hctl, hhead⟩ :=
    main_terminal env fuel pre post _ h rfl
  cases ending with
  | running => simp [Ending.events, Ending.after] at hpost
  | read_error e' => simp [Ending.events, Ending.after] at hpost
  | write_error br c d' e' => simp [Ending.events, Ending.after] at hpost
  | eof =>
    simp only [Ending.events, Ending.after, List.singleton_append, List.cons.injEq,
      Event.read.injEq, and_true] at hpost
    obtain ⟨rfl, rfl⟩ := hpost
    refine ⟨hctl, rfl, rfl, ?_⟩
    intro hnoread ev hev
    have hbody : body = [] := hhead (fun ev hev => hnoread ev (by
      rw [hpre]
      exact List.mem_append_right _ hev))
    rw [h, hpre, hbody] at hev
    simp only [List.append_nil, List.mem_append, List.mem_cons, List.mem_singleton,
      List.not_mem_nil, or_false] at hev
    rcases hev with hev | rfl | rfl
    · have := setup_isSetup env k n ev hev
      cases ev <;> first | rfl | (simp [Event.isSetup] at this)
    · rfl
    · rfl

/-- C9: in every run of `main`, with any amount of fuel, a `read` call that
fails with `errno = e` is followed by the `printf` of the diagnostic and the
`close` of the socket, and the error the diagnostic reports is `ETIMEDOUT` if
and only if `e` is `EAGAIN` or `ETIMEDOUT`; any other `e` is reported
unchanged. -/
theorem timeout_remapping (env : Env) (fuel : Nat) (pre post : List Event) (s : Int)
    (e : Errno)
    (h : (main env fuel).2.trace = pre ++ .read s (.error e) :: post) :
    ∃ reported, post = [.printf (.read_abnormal reported), .close s] ∧
      (reported = env.ETIMEDOUT ↔ (e = env.EAGAIN ∨ e = env.ETIMEDOUT)) ∧
      (e ≠ env.EAGAIN → e ≠ env.ETIMEDOUT → reported = e) := by
  obtain ⟨k, n, ending, body, _, _, _, hpost, _, _⟩ :=
    main_terminal env fuel pre post _ h rfl
  cases ending with
  | running => simp [Ending.events, Ending.after] at hpost
  | eof => simp [Ending.events, Ending.after] at hpost
  | write_error br c d' e' => simp [Ending.events, Ending.after] at hpost
  | read_error e' =>
    simp only [Ending.events, Ending.after, List.cons_append, List.nil_append,
      List.cons.injEq, Event.read.injEq, ReadResult.error.injEq] at hpost
    obtain ⟨⟨rfl, rfl⟩, rfl⟩ := hpost
    refine ⟨if e = env.EAGAIN then env.ETIMEDOUT else e, rfl, ?_, ?_⟩
    · by_cases he : e = env.EAGAIN
      · simp [he]
      · simp [he]
    · intro he _
      simp [he]

/-! ## The connection retry -/

theorem connects_append (l1 l2 : List Event) :
    connects (l1 ++ l2) = connects l1 ++ connects l2 := by
  induction l1 with
  | nil => rfl
  | cons a l1 ih => cases a <;> simp [connects, ih]

theorem connects_eq_nil (l : List Event) (h : ∀ ev ∈ l, ev.isConnect = false) :
    connects l = [] := by
  induction l with
  | nil => rfl
  | cons a l ih =>
    have ha := h a (List.mem_cons_self a l)
    have hl := ih (fun ev hev => h ev (List.mem_cons_of_mem a hev))
    cases a with
    | socket_local_client r => simp [Event.isConnect] at ha
    | _ => simp [connects, hl]

theorem connects_failed_attempts (env : Env) (k i : Nat) :
    connects (failed_attempts env k i) = (List.range' i k).map env.socket_local_client := by
  induction k generalizing i with
  | zero => rfl
  | succ k ih => simp [failed_attempts, connects, ih, List.range'_succ]

theorem benign_kind (s : Int) (ev : Event) (h : Benign s ev) :
    ev.isConnect = false ∧ ev.isClose = false ∧ ev.isSetup = false := by
  rcases h with ⟨n, d, k, rfl⟩ | ⟨d, _, rfl⟩ <;> exact ⟨rfl, rfl, rfl⟩

theorem isSetup_kind (ev : Event) (h : ev.isSetup = true) :
    ev.isRead = false ∧ ev.isWrite = false ∧ ev.isClose = false := by
  cases ev <;> first | exact ⟨rfl, rfl, rfl⟩ | (simp [Event.isSetup] at h)

theorem ending_kind (env : Env) (s : Int) (ending : Ending) :
    ∀ ev ∈ ending.events env s ++ (Ending.after s ending).2,
      ev.isConnect = false ∧ ∀ s1 r, ev = .read s1 r → s1 = s := by
  intro ev hev
  cases ending with
  | running => simp [Ending.events, Ending.after] at hev
  | eof =>
    simp only [Ending.events, Ending.after, List.mem_append, List.mem_singleton] at hev
    rcases hev with rfl | rfl
    · exact ⟨rfl, by intro s1 r h; cases h; rfl⟩
    · exact ⟨rfl, by intro s1 r h; cases h⟩
  | read_error e =>
    simp only [Ending.events, Ending.after, List.mem_append, List.mem_cons,
      List.mem_singleton, List.not_mem_nil, or_false] at hev
    rcases hev with (rfl | rfl) | rfl
    · exact ⟨rfl, by intro s1 r h; cases h; rfl⟩
    · exact ⟨rfl, by intro s1 r h; cases h⟩
    · exact ⟨rfl, by intro s1 r h; cases h⟩
  | write_error br c d e =>
    simp only [Ending.events, Ending.after, List.mem_append, List.mem_cons,
      List.mem_singleton, List.not_mem_nil, or_false] at hev
    rcases hev with rfl | rfl
    · exact ⟨rfl, by intro s1 r h; cases h⟩
    · exact ⟨rfl, by intro s1 r h; cases h⟩

theorem connects_setup (env : Env) (k n : Nat) (h : env.socket_local_client k = .fd n) :
    connects (setup env k n) = (List.range (k + 1)).map env.socket_local_client := by
  have h1 : connects (match env.setsockopt with
      | .error e => [Event.printf (.timeout_warning e)]
      | .ok => []) = [] := by
    cases env.setsockopt <;> rfl
  have h2 : setup env k n = [.property_set] ++ failed_attempts env k 0 ++
      [.socket_local_client (.fd n), .setsockopt n (10 * 60) env.setsockopt] ++
      (match env.setsockopt with
        | .error e => [Event.printf (.timeout_warning e)]
        | .ok => []) := by
    simp [setup]
  rw [h2, connects_append, connects_append, connects_append, connects_failed_attempts, h1,
    List.range_succ, List.range_eq_range']
  simp [connects, h]

theorem not_allFail_of_success (env : Env) (k n : Nat) (hk : k < 20)
    (h : env.socket_local_client k = .fd n) : ¬ AllFail env := by
  intro hall
  obtain ⟨e, he⟩ := hall k hk
  rw [h] at he
  cases he

theorem main_fail (env : Env) (fuel : Nat) (hargc : env.argc ≤ 1) (h : AllFail env) :
    main env fuel =
      (.ret EXIT_FAILURE, ⟨errno_after env 20 0 0, 0, 0,
        .property_set :: failed_attempts env 20 0 ++
          [.printf (.connect_failed (errno_after env 20 0 0))]⟩) := by
  rw [main_eq_relay env fuel hargc, relay_fail_init env fuel h]

/-- C5: in a run of `main` without arguments, when attempt `k` (counted from
0, `k < 20`) is the first to succeed, the `socket_local_client` calls made are
exactly the first `k + 1`, every `read` call is on the descriptor of that
attempt, and with fuel for one iteration the first `read` is made.  When all 20
attempts fail, exactly 20 attempts are made, `main` returns `EXIT_FAILURE`
(non-zero) and the run has no `read` and no `write` call.  So a `read` call is
made if and only if one of the first 20 attempts succeeds. -/
theorem connection_retry_outcome (env : Env) (fuel : Nat) (hargc : env.argc ≤ 1) :
    (∀ k n, FirstSuccess env k n →
      connects (main env fuel).2.trace = (List.range (k + 1)).map env.socket_local_client ∧
      (∀ s r, Event.read s r ∈ (main env fuel).2.trace → s = n) ∧
      (0 < fuel → Event.read n (env.read 0) ∈ (main env fuel).2.trace)) ∧
    (AllFail env →
      (main env fuel).1 = .ret EXIT_FAILURE ∧ EXIT_FAILURE ≠ 0 ∧
      connects (main env fuel).2.trace = (List.range 20).map env.socket_local_client ∧
      ∀ ev ∈ (main env fuel).2.trace, ev.isRead = false ∧ ev.isWrite = false) ∧
    (0 < fuel → ((∃ ev ∈ (main env fuel).2.trace, ev.isRead = true) ↔
      ∃ k n, k < 20 ∧ env.socket_local_client k = .fd n)) := by
  have hok : ∀ k n, FirstSuccess env k n →
      connects (main env fuel).2.trace = (List.range (k + 1)).map env.socket_local_client ∧
      (∀ s r, Event.read s r ∈ (main env fuel).2.trace → s = n) ∧
      (0 < fuel → Event.read n (env.read 0) ∈ (main env fuel).2.trace) := by
    intro k n hfs
    rw [main_eq_relay env fuel hargc]
    obtain ⟨body, ending, hb, _, htr, hfirst, _⟩ := relay_shape env fuel k n hfs
    have htr' : (relay env fuel State.init).2.trace =
        setup env k n ++ body ++ (ending.events env n ++ (Ending.after n ending).2) := by
      rw [htr]
      simp
    refine ⟨?_, ?_, ?_⟩
    · rw [htr', connects_append, connects_append, connects_setup env k n hfs.2.2,
        connects_eq_nil body (fun ev hev => (benign_kind n ev (hb ev hev)).1),
        connects_eq_nil _ (fun ev hev => (ending_kind env n ending ev hev).1)]
      simp
    · intro s r hmem
      rw [htr'] at hmem
      rcases List.mem_append.1 hmem with hmem | hmem
      · rcases List.mem_append.1 hmem with hmem | hmem
        · have := (isSetup_kind _ (setup_isSetup env k n _ hmem)).1
          simp [Event.isRead] at this
        · rcases hb _ hmem with ⟨c, d, j, h⟩ | ⟨d, _, h⟩
          · cases h
          · cases h
            rfl
      · exact (ending_kind env n ending _ hmem).2 s r rfl
    · intro hfuel
      obtain ⟨rest, hrest⟩ := hfirst hfuel
      rw [htr, List.append_assoc (setup env k n), hrest]
      simp
  have hfail : AllFail env →
      (main env fuel).1 = .ret EXIT_FAILURE ∧ EXIT_FAILURE ≠ 0 ∧
      connects (main env fuel).2.trace = (List.range 20).map env.socket_local_client ∧
      ∀ ev ∈ (main env fuel).2.trace, ev.isRead = false ∧ ev.isWrite = false := by
    intro hall
    rw [main_fail env fuel hargc hall]
    refine ⟨rfl, by decide, ?_, ?_⟩
    · have h2 : (Event.property_set :: failed_attempts env 20 0 ++
          [Event.printf (.connect_failed (errno_after env 20 0 0))]) =
          [Event.property_set] ++ failed_attempts env 20 0 ++
          [Event.printf (.connect_failed (errno_after env 20 0 0))] := by
        simp
      simp only
      rw [h2, connects_append, connects_append, connects_failed_attempts,
        List.range_eq_range']
      simp [connects]
    · intro ev hev
      simp only [List.mem_cons, List.mem_append, List.mem_singleton, List.not_mem_nil,
        or_false] at hev
      rcases hev with (rfl | hev) | rfl
      · exact ⟨rfl, rfl⟩
      · have := isSetup_kind ev (failed_attempts_isSetup env 20 0 ev hev)
        exact ⟨this.1, this.2.1⟩
      · exact ⟨rfl, rfl⟩
  refine ⟨hok, hfail, fun hfuel => ⟨?_, ?_⟩⟩
  · rintro ⟨ev, hev, hread⟩
    rcases connected_or_not env with hall | ⟨k, n, hfs⟩
    · rw [((hfail hall).2.2.2 ev hev).1] at hread
      cases hread
    · exact ⟨k, n, hfs.1, hfs.2.2⟩
  · rintro ⟨k, n, hk, hkn⟩
    rcases connected_or_not env with hall | ⟨k', n', hfs⟩
    · exact absurd hall (not_allFail_of_success env k n hk hkn)
    · exact ⟨_, (hok k' n' hfs).2.2 hfuel, rfl⟩

/-! ## Sending one chunk -/

theorem sinkBytes_append (l1 l2 : List Event) :
    sinkBytes (l1 ++ l2) = sinkBytes l1 ++ sinkBytes l2 := by
  induction l1 with
  | nil => rfl
  | cons a l1 ih =>
    cases a with
    | write c d w => cases w <;> simp [sinkBytes, ih]
    | _ => simp [sinkBytes, ih]

theorem slice_eq (buffer : List Byte) (b : Nat) (hb : b ≤ buffer.length) :
    slice buffer ((buffer.length : Int) - (b : Int)) (b : Int) =
      buffer.drop (buffer.length - b) := by
  have h1 : ((buffer.length : Int) - (b : Int)).toNat = buffer.length - b := by omega
  rw [slice, h1, Int.toNat_ofNat]
  apply List.take_of_length_le
  rw [List.length_drop]
  omega

theorem slice_length (buffer : List Byte) (b : Nat) (hb : b ≤ buffer.length) :
    (slice buffer ((buffer.length : Int) - (b : Int)) (b : Int)).length = b := by
  rw [slice_eq buffer b hb, List.length_drop]
  omega

theorem write_loop_drain (env : Env) (buffer : List Byte) (hsink : SinkAccepts env) :
    ∀ (fuel b : Nat) (st : State), 1 ≤ b → b ≤ buffer.length → b ≤ fuel →
      ∃ evs, write_loop env buffer buffer.length fuel b st =
          (.next, ⟨st.errno, st.nread, st.nwrite + evs.length, st.trace ++ evs⟩) ∧
        (∀ ev ∈ evs, ∃ c d k i, ev = .write c d (.accepted k) ∧ d ≠ [] ∧
          env.write i d = .accepted k) ∧
        sinkBytes evs <+: buffer.drop (buffer.length - b) ∧
        (sinkBytes evs = buffer.drop (buffer.length - b) ∨
          ∃ pre c d, evs = pre ++ [.write c d (.accepted 0)]) ∧
        (∀ pre post c d, evs = pre ++ .write c d (.accepted 0) :: post → post = []) := by
  intro fuel
  induction fuel with
  | zero =>
    intro b st h1 _ h3
    omega
  | succ fuel ih =>
    intro b st h1 h2 h3
    have hlen := slice_length buffer b h2
    have hne : slice buffer ((buffer.length : Int) - (b : Int)) (b : Int) ≠ [] := by
      intro h
      rw [h] at hlen
      simp at hlen
      omega
    obtain ⟨k, hk, hkb⟩ := hsink st.nwrite _ hne
    rw [hlen] at hkb
    have hev : ∃ c d k' i, Event.write (b : Int)
        (slice buffer ((buffer.length : Int) - (b : Int)) (b : Int)) (.accepted k) =
          .write c d (.accepted k') ∧ d ≠ [] ∧ env.write i d = .accepted k' :=
      ⟨_, _, _, _, rfl, hne, hk⟩
    by_cases hc : k ≠ 0 ∧ (b : Int) - (k : Int) > 0
    · rw [write_loop_continue env buffer buffer.length fuel b st k hk hc.1 hc.2]
      have hcast : (b : Int) - (k : Int) = ((b - k : Nat) : Int) := by omega
      rw [hcast]
      obtain ⟨evs, hrun, hevs, hpre, hlast, hzero⟩ := ih (b - k) ⟨st.errno, st.nread, st.nwrite + 1,
        st.trace ++ [.write b (slice buffer ((buffer.length : Int) - (b : Int)) (b : Int))
          (.accepted k)]⟩ (by omega) (by omega) (by omega)
      have hdrop : buffer.drop (buffer.length - (b - k)) =
          (buffer.drop (buffer.length - b)).drop k := by
        rw [List.drop_drop]
        congr 1
        omega
      refine ⟨(Event.write (b : Int) (slice buffer ((buffer.length : Int) - (b : Int)) (b : Int))
        (.accepted k)) :: evs, ?_, ?_, ?_, ?_, ?_⟩
      · rw [hrun]
        simp
        omega
      · intro ev hmem
        rcases List.mem_cons.1 hmem with rfl | hmem
        · exact hev
        · exact hevs ev hmem
      · rw [sinkBytes, slice_eq buffer b h2]
        rw [hdrop] at hpre
        conv_rhs => rw [← List.take_append_drop k (buffer.drop (buffer.length - b))]
        exact (List.prefix_append_right_inj _).2 hpre
      · rcases hlast with hall | ⟨pre, c, d, hlast⟩
        · left
          rw [sinkBytes, slice_eq buffer b h2, hall, hdrop, List.take_append_drop]
        · right
          exact ⟨_ :: pre, c, d, by rw [hlast]; rfl⟩
      · intro pre post c d hsplit
        cases pre with
        | nil =>
          simp only [List.nil_append, List.cons.injEq, Event.write.injEq,
            WriteResult.accepted.injEq] at hsplit
          exact absurd hsplit.1.2.2 hc.1
        | cons p pre =>
          simp only [List.cons_append, List.cons.injEq] at hsplit
          exact hzero pre post c d hsplit.2
    · have hc' : k = 0 ∨ (b : Int) - (k : Int) ≤ 0 := by
        by_cases hk0 : k = 0
        · exact Or.inl hk0
        · exact Or.inr (by
            have := fun hb => hc ⟨hk0, hb⟩
            omega)
      rw [write_loop_stop env buffer buffer.length fuel b st k hk hc']
      refine ⟨[(Event.write (b : Int) (slice buffer ((buffer.length : Int) - (b : Int)) (b : Int))
        (.accepted k))], rfl, ?_, ?_, ?_, ?_⟩
      · intro ev hmem
        rw [List.mem_singleton.1 hmem]
        exact hev
      · rw [sinkBytes, slice_eq buffer b h2]
        simpa [sinkBytes] using List.take_prefix k _
      · rcases hc' with hk0 | hkb'
        · right
          exact ⟨[], _, _, by rw [hk0]; rfl⟩
        · left
          have hkeq : k = b := by omega
          rw [sinkBytes, slice_eq buffer b h2, hkeq]
          simp [sinkBytes, List.length_drop]
          omega
      · intro pre post c d hsplit
        cases pre with
        | nil =>
          simp only [List.nil_append, List.cons.injEq] at hsplit
          exact hsplit.2.symm
        | cons p pre =>
          simp only [List.cons_append, List.cons.injEq] at hsplit
          have := hsplit.2
          simp at this

theorem write_loop_bounded (env : Env) (buffer : List Byte)
    (hsink : ∀ i d k, env.write i d = .accepted k → k ≤ d.length) :
    ∀ (fuel b : Nat) (st : State), 1 ≤ b → b ≤ buffer.length → b ≤ fuel →
      (write_loop env buffer buffer.length fuel b st).1 ≠ .out_of_fuel ∧
      ∃ evs, (write_loop env buffer buffer.length fuel b st).2.trace = st.trace ++ evs ∧
        (write_loop env buffer buffer.length fuel b st).2.nwrite =
          st.nwrite + evs.countP Event.isWrite ∧
        1 ≤ evs.countP Event.isWrite ∧ evs.countP Event.isWrite ≤ b ∧
        ∀ c d w, Event.write c d w ∈ evs →
          1 ≤ c ∧ c ≤ (b : Int) ∧ ∀ k, w = .accepted k → 0 ≤ c - (k : Int) ∧ c - (k : Int) ≤ b := by
  intro fuel
  induction fuel with
  | zero =>
    intro b st h1 _ h3
    omega
  | succ fuel ih =>
    intro b st h1 h2 h3
    have hlen := slice_length buffer b h2
    cases hw : env.write st.nwrite (slice buffer ((buffer.length : Int) - (b : Int)) (b : Int)) with
    | error e =>
      rw [write_loop_error env buffer buffer.length fuel b st e hw]
      refine ⟨by simp, _, rfl, ?_, ?_, ?_, ?_⟩
      · simp [Event.isWrite]
      · simp [Event.isWrite]
      · simp [Event.isWrite]
        omega
      · intro c d w hmem
        simp only [List.mem_cons, Event.write.injEq, List.mem_singleton, List.not_mem_nil,
          or_false, reduceCtorEq] at hmem
        obtain ⟨rfl, rfl, rfl⟩ := hmem
        refine ⟨by omega, le_refl _, ?_⟩
        intro k hk
        cases hk
    | accepted k =>
      have hkb : k ≤ b := by
        have := hsink _ _ _ hw
        rwa [hlen] at this
      have hbound : ∀ c d w, Event.write c d w ∈ [Event.write (b : Int)
          (slice buffer ((buffer.length : Int) - (b : Int)) (b : Int)) (.accepted k)] →
          1 ≤ c ∧ c ≤ (b : Int) ∧
            ∀ k, w = .accepted k → 0 ≤ c - (k : Int) ∧ c - (k : Int) ≤ b := by
        intro c d w hmem
        simp only [List.mem_singleton, Event.write.injEq] at hmem
        obtain ⟨rfl, rfl, rfl⟩ := hmem
        refine ⟨by omega, le_refl _, ?_⟩
        intro k' hk'
        cases hk'
        omega
      by_cases hc : k ≠ 0 ∧ (b : Int) - (k : Int) > 0
      · rw [write_loop_continue env buffer buffer.length fuel b st k hw hc.1 hc.2]
        have hcast : (b : Int) - (k : Int) = ((b - k : Nat) : Int) := by omega
        rw [hcast]
        obtain ⟨hfu, evs, htr, hnw, hc1, hc2, hall⟩ := ih (b - k) ⟨st.errno, st.nread,
          st.nwrite + 1, st.trace ++ [.write b
            (slice buffer ((buffer.length : Int) - (b : Int)) (b : Int)) (.accepted k)]⟩
          (by omega) (by omega) (by omega)
        refine ⟨hfu, Event.write (b : Int)
          (slice buffer ((buffer.length : Int) - (b : Int)) (b : Int)) (.accepted k) :: evs,
          ?_, ?_, ?_, ?_, ?_⟩
        · rw [htr]
          simp
        · rw [hnw]
          simp [Event.isWrite]
          omega
        · simp [Event.isWrite]
        · simp [Event.isWrite]
          omega
        · intro c d w hmem
          rcases List.mem_cons.1 hmem with hmem | hmem
          · exact hbound c d w (by rw [hmem]; simp)
          · obtain ⟨g1, g2, g3⟩ := hall c d w hmem
            refine ⟨g1, by omega, ?_⟩
            intro k' hk'
            have := g3 k' hk'
            omega
      · have hc' : k = 0 ∨ (b : Int) - (k : Int) ≤ 0 := by
          by_cases hk0 : k = 0
          · exact Or.inl hk0
          · exact Or.inr (by
              have := fun hb => hc ⟨hk0, hb⟩
              omega)
        rw [write_loop_stop env buffer buffer.length fuel b st k hw hc']
        refine ⟨by simp, _, rfl, ?_, ?_, ?_, hbound⟩
        · simp [Event.isWrite]
        · simp [Event.isWrite]
        · simp [Event.isWrite]
          omega

/-! ## Relaying a sequence of chunks -/

theorem SinkGood.accepts {env : Env} (h : SinkGood env) : SinkAccepts env := by
  intro i d hd
  obtain ⟨k, hk, _, hk2⟩ := h i d hd
  exact ⟨k, hk, hk2⟩

theorem write_loop_good (env : Env) (buffer : List Byte) (hsink : SinkGood env)
    (fuel : Nat) (st : State) (hne : buffer ≠ []) (hfuel : buffer.length ≤ fuel) :
    ∃ evs, write_loop env buffer buffer.length fuel buffer.length st =
        (.next, ⟨st.errno, st.nread, st.nwrite + evs.length, st.trace ++ evs⟩) ∧
      (∀ ev ∈ evs, ∃ c d k, ev = .write c d (.accepted k)) ∧ sinkBytes evs = buffer := by
  have hpos : 1 ≤ buffer.length := by
    cases buffer with
    | nil => exact absurd rfl hne
    | cons a l => simp
  obtain ⟨evs, hrun, hevs, _, hlast, _⟩ :=
    write_loop_drain env buffer hsink.accepts fuel buffer.length st hpos (le_refl _) hfuel
  refine ⟨evs, hrun, ?_, ?_⟩
  · intro ev hev
    obtain ⟨c, d, k, i, h, _⟩ := hevs ev hev
    exact ⟨c, d, k, h⟩
  · rcases hlast with h | ⟨pre, c, d, h⟩
    · simpa using h
    · obtain ⟨c', d', k', i, h1, h2, h3⟩ := hevs (.write c d (.accepted 0)) (by rw [h]; simp)
      simp only [Event.write.injEq, WriteResult.accepted.injEq] at h1
      obtain ⟨-, rfl, rfl⟩ := h1
      obtain ⟨k, hk, hk1, _⟩ := hsink i d h2
      rw [h3] at hk
      cases hk
      omega

theorem read_loop_chunks (env : Env) (s : Int) (hsink : SinkGood env) (L : Nat) :
    ∀ (chunks : List (List Byte)) (fuel : Nat) (st : State),
      (∀ c ∈ chunks, c ≠ [] ∧ c.length ≤ L) →
      (∀ i (h : i < chunks.length), env.read (st.nread + i) = .data chunks[i]) →
      chunks.length + L ≤ fuel →
      ∃ evs, read_loop env s fuel st =
          read_loop env s (fuel - chunks.length)
            ⟨st.errno, st.nread + chunks.length, st.nwrite + evs.countP Event.isWrite,
              st.trace ++ evs⟩ ∧
        (∀ ev ∈ evs, Benign s ev) ∧ sinkBytes evs = chunks.flatten := by
  intro chunks
  induction chunks with
  | nil =>
    intro fuel st _ _ _
    exact ⟨[], by simp, by simp, rfl⟩
  | cons c cs ih =>
    intro fuel st hc hread hfuel
    obtain ⟨hcne, hcL⟩ := hc c (List.mem_cons_self c cs)
    obtain ⟨f, rfl⟩ : ∃ f, fuel = f + 1 := ⟨fuel - 1, by simp at hfuel; omega⟩
    have h0 : env.read st.nread = .data c := by
      simpa using hread 0 (by simp)
    rw [read_loop_chunk env s f st c h0 hcne]
    obtain ⟨ws, hrun, hws, hbytes⟩ := write_loop_good env c hsink f
      ⟨st.errno, st.nread + 1, st.nwrite, st.trace ++ [.read s (.data c)]⟩ hcne
      (by simp at hfuel; omega)
    rw [hrun]
    simp only
    obtain ⟨evs, hrun2, hevs, hbytes2⟩ := ih f
      ⟨st.errno, st.nread + 1, st.nwrite + ws.length,
        st.trace ++ [.read s (.data c)] ++ ws⟩
      (fun c' hc' => hc c' (List.mem_cons_of_mem c hc'))
      (by
        intro i h
        have := hread (i + 1) (by simp; omega)
        simp only [List.getElem_cons_succ] at this
        rw [← this]
        congr 1
        simp only
        omega)
      (by simp at hfuel; omega)
    have hcount : ws.countP Event.isWrite = ws.length := by
      rw [List.countP_eq_length]
      intro ev hev
      obtain ⟨n, d, k, rfl⟩ := hws ev hev
      rfl
    refine ⟨Event.read s (.data c) :: ws ++ evs, ?_, ?_, ?_⟩
    · rw [hrun2]
      congr 1
      · simp
      · simp [Event.isRead, Event.isWrite, hcount, List.countP_append, List.countP_cons]
        constructor <;> omega
    · intro ev hev
      simp only [List.cons_append, List.mem_cons, List.mem_append] at hev
      rcases hev with rfl | hev | hev
      · exact Or.inr ⟨c, hcne, rfl⟩
      · exact Or.inl (hws ev hev)
      · exact hevs ev hev
    · simp [sinkBytes, sinkBytes_append, hbytes, hbytes2]

theorem sinkBytes_eq_nil (l : List Event) (h : ∀ ev ∈ l, ev.isWrite = false) :
    sinkBytes l = [] := by
  induction l with
  | nil => rfl
  | cons a l ih =>
    have ha := h a (List.mem_cons_self a l)
    have hl := ih (fun ev hev => h ev (List.mem_cons_of_mem a hev))
    cases a with
    | write c d w => simp [Event.isWrite] at ha
    | _ => simp [sinkBytes, hl]

theorem sinkBytes_setup (env : Env) (k n : Nat) : sinkBytes (setup env k n) = [] :=
  sinkBytes_eq_nil _ (fun ev hev => (isSetup_kind ev (setup_isSetup env k n ev hev)).2.1)

theorem main_chunks (env : Env) (k n : Nat) (chunks : List (List Byte)) (fuel : Nat)
    (hargc : env.argc ≤ 1) (hconn : FirstSuccess env k n) (hsink : SinkGood env)
    (hchunks : ∀ c ∈ chunks, c ≠ [] ∧ c.length ≤ BUFFER_SIZE)
    (hread : ∀ i (h : i < chunks.length), env.read i = .data chunks[i])
    (hfuel : chunks.length + BUFFER_SIZE ≤ fuel) (ending : Ending)
    (hfinal : (ending = .eof ∧ env.read chunks.length = .data []) ∨
      (∃ e, ending = .read_error e ∧ env.read chunks.length = .error e)) :
    ∃ evs, (∀ ev ∈ evs, Benign n ev) ∧ sinkBytes evs = chunks.flatten ∧
      (main env fuel).1 = .ret EXIT_SUCCESS ∧
      (main env fuel).2.trace = setup env k n ++ evs ++ ending.events env n ++ [.close n] := by
  rw [main_eq_relay env fuel hargc, relay_ok env fuel _ k n hconn]
  obtain ⟨evs, hrun, hevs, hbytes⟩ := read_loop_chunks env n hsink BUFFER_SIZE chunks fuel
    ⟨setup_errno env k State.init.errno, State.init.nread, State.init.nwrite,
      State.init.trace ++ setup env k n⟩ hchunks
    (by
      intro i h
      simpa [State.init] using hread i h)
    hfuel
  obtain ⟨f, hf⟩ : ∃ f, fuel - chunks.length = f + 1 :=
    ⟨fuel - chunks.length - 1, by simp [BUFFER_SIZE] at hfuel; omega⟩
  rw [hrun, hf]
  refine ⟨evs, hevs, hbytes, ?_⟩
  rcases hfinal with ⟨rfl, hlast⟩ | ⟨e, rfl, hlast⟩
  · rw [read_loop_eof env n f _ (by simpa [State.init] using hlast)]
    simp [State.emit, State.init, Ending.events]
  · rw [read_loop_error env n f _ e (by simpa [State.init] using hlast)]
    simp [State.emit, State.init, Ending.events]

/-- C1: in a run of `main` without arguments in which a connection attempt
succeeds, the `read` calls return the chunks of `chunks` (each of 1 to 65536
bytes) and then zero bytes, and the sink never fails and accepts between 1 and
the offered number of bytes on every call, `main` returns `EXIT_SUCCESS` and the
bytes the sink accepted, in call order, are the chunks concatenated in read
order.  Fuel `chunks.length + 65536` is enough. -/
theorem relay_byte_exact (env : Env) (k n : Nat) (chunks : List (List Byte)) (fuel : Nat)
    (hargc : env.argc ≤ 1) (hconn : FirstSuccess env k n) (hsink : SinkGood env)
    (hchunks : ∀ c ∈ chunks, 1 ≤ c.length ∧ c.length ≤ BUFFER_SIZE)
    (hread : ∀ i (h : i < chunks.length), env.read i = .data chunks[i])
    (heof : env.read chunks.length = .data [])
    (hfuel : chunks.length + BUFFER_SIZE ≤ fuel) :
    (main env fuel).1 = .ret EXIT_SUCCESS ∧
    sinkBytes (main env fuel).2.trace = chunks.flatten := by
  have hchunks' : ∀ c ∈ chunks, c ≠ [] ∧ c.length ≤ BUFFER_SIZE := by
    intro c hc
    obtain ⟨h1, h2⟩ := hchunks c hc
    refine ⟨?_, h2⟩
    intro h
    rw [h] at h1
    simp at h1
  obtain ⟨evs, _, hbytes, hctl, htr⟩ := main_chunks env k n chunks fuel hargc hconn hsink
    hchunks' hread hfuel .eof (Or.inl ⟨rfl, heof⟩)
  refine ⟨hctl, ?_⟩
  rw [htr, sinkBytes_append, sinkBytes_append, sinkBytes_append, sinkBytes_setup, hbytes]
  simp [Ending.events, sinkBytes]

/-- C10: the `do ... while` loop entered with a chunk of `n >= 1` bytes and a
sink whose calls fail or return a count of at most the bytes offered is left
within `n` iterations (fuel `n` is enough, whatever the sink answers): it makes
at least 1 and at most `n` `write` calls, and `bytes_to_send` is between 1 and
`n` at every call and between 0 and `n` after every call that returned a
count. -/
theorem write_loop_terminates (env : Env) (buffer : List Byte) (fuel : Nat) (st : State)
    (hn : 1 ≤ buffer.length)
    (hsink : ∀ i d k, env.write i d = .accepted k → k ≤ d.length)
    (hfuel : buffer.length ≤ fuel) :
    (write_loop env buffer buffer.length fuel buffer.length st).1 ≠ .out_of_fuel ∧
    ∃ evs, (write_loop env buffer buffer.length fuel buffer.length st).2.trace =
        st.trace ++ evs ∧
      1 ≤ evs.countP Event.isWrite ∧ evs.countP Event.isWrite ≤ buffer.length ∧
      ∀ c d w, Event.write c d w ∈ evs →
        1 ≤ c ∧ c ≤ (buffer.length : Int) ∧
          ∀ k, w = .accepted k → 0 ≤ c - (k : Int) ∧ c - (k : Int) ≤ buffer.length := by
  obtain ⟨h1, evs, h2, _, h4, h5, h6⟩ :=
    write_loop_bounded env buffer hsink fuel buffer.length st hn (le_refl _) hfuel
  exact ⟨h1, evs, h2, h4, h5, h6⟩

/-- C2 (amended): for a chunk of at least one byte and a sink that never fails
and accepts between 0 and the offered number of bytes on every call, the
`do ... while` loop ends with control back at the `while (1)` loop, having made
only `write` calls (no `read`); the bytes the sink accepted are a prefix of the
chunk; a call that accepts zero bytes is the last call of the loop (it is not
retried); the chunk is sent whole unless the last call accepted zero bytes, so
it is sent whole when every call accepts at least one byte. -/
theorem drain_until_done_or_zero (env : Env) (buffer : List Byte) (fuel : Nat) (st : State)
    (hne : buffer ≠ []) (hsink : SinkAccepts env) (hfuel : buffer.length ≤ fuel) :
    ∃ evs, write_loop env buffer buffer.length fuel buffer.length st =
        (.next, ⟨st.errno, st.nread, st.nwrite + evs.length, st.trace ++ evs⟩) ∧
      (∀ ev ∈ evs, ev.isWrite = true) ∧
      sinkBytes evs <+: buffer ∧
      (∀ pre post c d, evs = pre ++ .write c d (.accepted 0) :: post → post = []) ∧
      (sinkBytes evs = buffer ∨ ∃ pre c d, evs = pre ++ [.write c d (.accepted 0)]) ∧
      ((∀ i d, d ≠ [] → env.write i d ≠ .accepted 0) → sinkBytes evs = buffer) := by
  have hpos : 1 ≤ buffer.length := by
    cases buffer with
    | nil => exact absurd rfl hne
    | cons a l => simp
  obtain ⟨evs, hrun, hevs, hpre, hlast, hzero⟩ :=
    write_loop_drain env buffer hsink fuel buffer.length st hpos (le_refl _) hfuel
  simp only [Nat.sub_self, List.drop_zero] at hpre hlast
  refine ⟨evs, hrun, ?_, hpre, hzero, hlast, ?_⟩
  · intro ev hev
    obtain ⟨c, d, k, i, h, _⟩ := hevs ev hev
    rw [h]
    rfl
  · intro hpos'
    rcases hlast with h | ⟨pre, c, d, h⟩
    · exact h
    · obtain ⟨c', d', k', i, h1, h2, h3⟩ := hevs (.write c d (.accepted 0)) (by rw [h]; simp)
      simp only [Event.write.injEq, WriteResult.accepted.injEq] at h1
      obtain ⟨-, rfl, rfl⟩ := h1
      exact absurd h3 (hpos' i d h2)

/-! ## Diagnostics -/

theorem printedStderr_eq_nil (l : List Event) (h : ∀ ev ∈ l, ev.isStderr = false) :
    printedStderr l = [] := by
  induction l with
  | nil => rfl
  | cons a l ih =>
    have ha := h a (List.mem_cons_self a l)
    have hl := ih (fun ev hev => h ev (List.mem_cons_of_mem a hev))
    cases a with
    | fprintf_stderr m => simp [Event.isStderr] at ha
    | _ => simp [printedStderr, hl]

theorem printed_append (l1 l2 : List Event) :
    printed (l1 ++ l2) = printed l1 ++ printed l2 := by
  induction l1 with
  | nil => rfl
  | cons a l1 ih => cases a <;> simp [printed, ih]

theorem printed_failed_attempts (env : Env) (k i : Nat) :
    printed (failed_attempts env k i) = [] := by
  induction k generalizing i with
  | zero => rfl
  | succ k ih => simp [failed_attempts, printed, ih]

theorem isSetup_not_stderr (ev : Event) (h : ev.isSetup = true) : ev.isStderr = false := by
  cases ev <;> first | rfl | (simp [Event.isSetup] at h)

theorem relay_no_stderr (env : Env) (fuel : Nat) :
    ∀ ev ∈ (relay env fuel State.init).2.trace, ev.isStderr = false := by
  intro ev hev
  rcases connected_or_not env with hall | ⟨k, n, hfs⟩
  · rw [relay_fail_init env fuel hall] at hev
    simp only [List.mem_cons, List.mem_append, List.mem_singleton, List.not_mem_nil,
      or_false] at hev
    rcases hev with (rfl | hev) | rfl
    · rfl
    · exact isSetup_not_stderr ev (failed_attempts_isSetup env 20 0 ev hev)
    · rfl
  · obtain ⟨body, ending, hb, _, htr, _, _⟩ := relay_shape env fuel k n hfs
    rw [htr] at hev
    simp only [List.mem_append] at hev
    rcases hev with ((hev | hev) | hev) | hev
    · exact isSetup_not_stderr ev (setup_isSetup env k n ev hev)
    · rcases hb ev hev with ⟨c, d, j, rfl⟩ | ⟨d, _, rfl⟩ <;> rfl
    · cases ending <;> simp [Ending.events] at hev
      · rw [hev]
        rfl
      · rcases hev with rfl | rfl <;> rfl
      · rcases hev with rfl | rfl <;> rfl
    · cases ending <;> simp [Ending.after] at hev
      · rw [hev]
        rfl
      · rw [hev]
        rfl

/-- C7 (amended): in a run of `main` without arguments nothing is printed on
the standard error; the diagnostic of each failure path is printed with
`printf`, on the standard output: after 20 failed attempts the only text
printed is the connection diagnostic, a failed `setsockopt` is followed by the
warning, a failed `read` and a failed `write` by their diagnostics.  The
`write` calls deliver relayed bytes only: none when no connection was made,
and, with a sink that accepts at least one byte per call, exactly the chunks
read before a `read` fails (the first two chunks when the third `read`
fails). -/
theorem diagnostics_on_stdout (env : Env) (fuel : Nat) (hargc : env.argc ≤ 1) :
    printedStderr (main env fuel).2.trace = [] ∧
    (AllFail env →
      (∃ e, printed (main env fuel).2.trace = [.connect_failed e]) ∧
      sinkBytes (main env fuel).2.trace = []) ∧
    (∀ k n e, FirstSuccess env k n → env.setsockopt = .error e →
      Event.printf (.timeout_warning e) ∈ (main env fuel).2.trace) ∧
    (∀ pre post s e, (main env fuel).2.trace = pre ++ .read s (.error e) :: post →
      ∃ e', post = [.printf (.read_abnormal e'), .close s]) ∧
    (∀ pre post c d e, (main env fuel).2.trace = pre ++ .write c d (.error e) :: post →
      ∃ bytes_read, post = [.printf (.write_failed bytes_read c e)]) ∧
    (∀ (k n : Nat) (chunks : List (List Byte)) (e : Errno), FirstSuccess env k n →
      SinkGood env →
      (∀ c ∈ chunks, 1 ≤ c.length ∧ c.length ≤ BUFFER_SIZE) →
      (∀ i (h : i < chunks.length), env.read i = .data chunks[i]) →
      env.read chunks.length = .error e → chunks.length + BUFFER_SIZE ≤ fuel →
      sinkBytes (main env fuel).2.trace = chunks.flatten) := by
  refine ⟨?_, ?_, ?_, ?_, ?_, ?_⟩
  · rw [main_eq_relay env fuel hargc]
    exact printedStderr_eq_nil _ (relay_no_stderr env fuel)
  · intro hall
    rw [main_eq_relay env fuel hargc, relay_fail_init env fuel hall]
    have h2 : (Event.property_set :: failed_attempts env 20 0 ++
        [Event.printf (.connect_failed (errno_after env 20 0 0))]) =
        [Event.property_set] ++ failed_attempts env 20 0 ++
        [Event.printf (.connect_failed (errno_after env 20 0 0))] := by
      simp
    refine ⟨⟨errno_after env 20 0 0, ?_⟩, ?_⟩
    · simp only
      rw [h2, printed_append, printed_append, printed_failed_attempts]
      rfl
    · apply sinkBytes_eq_nil
      intro ev hev
      simp only [List.mem_cons, List.mem_append, List.mem_singleton, List.not_mem_nil,
        or_false] at hev
      rcases hev with (rfl | hev) | rfl
      · rfl
      · exact (isSetup_kind ev (failed_attempts_isSetup env 20 0 ev hev)).2.1
      · rfl
  · intro k n e hfs hs
    rw [main_eq_relay env fuel hargc]
    obtain ⟨body, ending, _, _, htr, _, _⟩ := relay_shape env fuel k n hfs
    rw [htr]
    simp [setup, hs]
  · intro pre post s e h
    obtain ⟨k, n, ending, body, _, _, _, hpost, _, _⟩ :=
      main_terminal env fuel pre post _ h rfl
    cases ending with
    | running => simp [Ending.events, Ending.after] at hpost
    | eof => simp [Ending.events, Ending.after] at hpost
    | write_error br c d' e' => simp [Ending.events, Ending.after] at hpost
    | read_error e' =>
      simp only [Ending.events, Ending.after, List.cons_append, List.nil_append,
        List.cons.injEq, Event.read.injEq, ReadResult.error.injEq] at hpost
      obtain ⟨⟨rfl, rfl⟩, rfl⟩ := hpost
      exact ⟨_, rfl⟩
  · intro pre post c d e h
    obtain ⟨k, n, ending, body, _, _, _, hpost, _, _⟩ :=
      main_terminal env fuel pre post _ h rfl
    cases ending with
    | running => simp [Ending.events, Ending.after] at hpost
    | eof => simp [Ending.events, Ending.after] at hpost
    | read_error e' => simp [Ending.events, Ending.after] at hpost
    | write_error br c' d' e' =>
      simp only [Ending.events, Ending.after, List.append_nil, List.cons.injEq,
        Event.write.injEq, WriteResult.error.injEq] at hpost
      obtain ⟨⟨rfl, rfl, rfl⟩, rfl⟩ := hpost
      exact ⟨br, rfl⟩
  · intro k n chunks e hfs hsink hchunks hread hlast hfuel
    have hchunks' : ∀ c ∈ chunks, c ≠ [] ∧ c.length ≤ BUFFER_SIZE := by
      intro c hc
      obtain ⟨h1, h2⟩ := hchunks c hc
      refine ⟨?_, h2⟩
      intro h
      rw [h] at h1
      simp at h1
    obtain ⟨evs, _, hbytes, _, htr⟩ := main_chunks env k n chunks fuel hargc hfs hsink
      hchunks' hread hfuel (.read_error e) (Or.inr ⟨e, rfl, hlast⟩)
    rw [htr, sinkBytes_append, sinkBytes_append, sinkBytes_append, sinkBytes_setup, hbytes]
    simp [Ending.events, sinkBytes]

/-! ## Exit status and `close` on the failure paths -/

theorem countP_isClose_eq_zero (l : List Event) (h : ∀ ev ∈ l, ev.isClose = false) :
    l.countP Event.isClose = 0 := by
  rw [List.countP_eq_zero]
  intro ev hev
  rw [h ev hev]
  simp

/-- In every run of `main`, a `read` call that fails is followed by the return
of `EXIT_SUCCESS`, and the socket is closed once. -/
theorem read_failure_exit_status (env : Env) (fuel : Nat) (pre post : List Event) (s : Int)
    (e : Errno) (h : (main env fuel).2.trace = pre ++ .read s (.error e) :: post) :
    (main env fuel).1 = .ret EXIT_SUCCESS ∧
    (main env fuel).2.trace.countP Event.isClose = 1 := by
  obtain ⟨k, n, ending, body, _, hb, hpre, hpost, hctl, _⟩ :=
    main_terminal env fuel pre post _ h rfl
  cases ending with
  | running => simp [Ending.events, Ending.after] at hpost
  | eof => simp [Ending.events, Ending.after] at hpost
  | write_error br c d' e' => simp [Ending.events, Ending.after] at hpost
  | read_error e' =>
    simp only [Ending.events, Ending.after, List.cons_append, List.nil_append,
      List.cons.injEq, Event.read.injEq, ReadResult.error.injEq] at hpost
    obtain ⟨⟨rfl, rfl⟩, rfl⟩ := hpost
    refine ⟨hctl, ?_⟩
    have h0 : pre.countP Event.isClose = 0 := by
      apply countP_isClose_eq_zero
      intro ev hev
      rw [hpre] at hev
      rcases List.mem_append.1 hev with hev | hev
      · exact (isSetup_kind ev (setup_isSetup env k n ev hev)).2.2
      · exact (benign_kind n ev (hb ev hev)).2.1
    rw [h, List.countP_append, h0]
    simp [List.countP_cons, Event.isClose]

/-- In every run of `main`, a `write` call that fails is followed by the return
of `EXIT_FAILURE`, and the run has no `close` call. -/
theorem write_failure_no_close (env : Env) (fuel : Nat) (pre post : List Event) (c : Int)
    (d : List Byte) (e : Errno)
    (h : (main env fuel).2.trace = pre ++ .write c d (.error e) :: post) :
    (main env fuel).1 = .ret EXIT_FAILURE ∧
    (main env fuel).2.trace.countP Event.isClose = 0 := by
  obtain ⟨k, n, ending, body, _, hb, hpre, hpost, hctl, _⟩ :=
    main_terminal env fuel pre post _ h rfl
  cases ending with
  | running => simp [Ending.events, Ending.after] at hpost
  | eof => simp [Ending.events, Ending.after] at hpost
  | read_error e' => simp [Ending.events, Ending.after] at hpost
  | write_error br c' d' e' =>
    simp only [Ending.events, Ending.after, List.append_nil, List.cons.injEq,
      Event.write.injEq, WriteResult.error.injEq] at hpost
    obtain ⟨⟨rfl, rfl, rfl⟩, rfl⟩ := hpost
    refine ⟨hctl, ?_⟩
    have h0 : pre.countP Event.isClose = 0 := by
      apply countP_isClose_eq_zero
      intro ev hev
      rw [hpre] at hev
      rcases List.mem_append.1 hev with hev | hev
      · exact (isSetup_kind ev (setup_isSetup env k n ev hev)).2.2
      · exact (benign_kind n ev (hb ev hev)).2.1
    rw [h, List.countP_append, h0]
    simp [List.countP_cons, Event.isClose]

/-! ## Runs on concrete environments -/

/-- Witness for C1: chunks of 1024 and 2048 bytes followed by a zero-byte read,
through a sink that accepts at most 1000 bytes per call, give exactly those
3072 bytes on the sink. -/
theorem relay_byte_exact_witness :
    env_two_chunks.argc ≤ 1 ∧ FirstSuccess env_two_chunks 2 3 ∧ SinkGood env_two_chunks ∧
    (main env_two_chunks 65538).1 = .ret EXIT_SUCCESS ∧
    sinkBytes (main env_two_chunks 65538).2.trace =
      List.replicate 1024 0xAA ++ List.replicate 2048 0xBB ∧
    (sinkBytes (main env_two_chunks 65538).2.trace).length = 3072 := by
  have hconn : FirstSuccess env_two_chunks 2 3 :=
    ⟨by decide, fun j hj => ⟨111, by interval_cases j <;> rfl⟩, rfl⟩
  have hsink : SinkGood env_two_chunks := by
    intro i d hd
    refine ⟨min d.length 1000, rfl, ?_, Nat.min_le_left _ _⟩
    have : 0 < d.length := List.length_pos.2 hd
    omega
  have h := relay_byte_exact env_two_chunks 2 3
    [List.replicate 1024 0xAA, List.replicate 2048 0xBB] 65538 (by decide) hconn hsink
    (by
      intro c hc
      simp only [List.mem_cons, List.mem_singleton, List.not_mem_nil, or_false] at hc
      rcases hc with rfl | rfl <;> rw [List.length_replicate] <;> decide)
    (by
      intro i hi
      have hi' : i < 2 := hi
      interval_cases i <;> rfl)
    rfl (by decide)
  refine ⟨by decide, hconn, hsink, h.1, ?_, ?_⟩
  · rw [h.2]
    simp only [List.flatten, List.append_nil]
  · rw [h.2]
    simp only [List.flatten, List.append_nil, List.length_append, List.length_replicate]

/-- C2 (counterexample): the sink of `env_zero_accept` never fails, accepts
between 0 and the offered number of bytes, and accepts everything from its
second call on; yet after the chunk `[1, 2, 3]` is read, the one `write` call
that accepts zero bytes is followed by the next `read`: the chunk is not
retried and the sink has received nothing. -/
theorem zero_accept_not_retried :
    (∀ i d, ∃ k, env_zero_accept.write i d = .accepted k ∧ k ≤ d.length) ∧
    (∀ i d, 0 < i → env_zero_accept.write i d = .accepted d.length) ∧
    main env_zero_accept 2 =
      (.ret EXIT_SUCCESS, ⟨0, 2, 1,
        [.property_set, .socket_local_client (.fd 3), .setsockopt 3 600 .ok,
          .read 3 (.data [1, 2, 3]), .write 3 [1, 2, 3] (.accepted 0),
          .read 3 (.data []), .close 3]⟩) ∧
    sinkBytes (main env_zero_accept 2).2.trace = [] := by
  refine ⟨?_, ?_, by decide, by decide⟩
  · intro i d
    by_cases hi : i = 0
    · exact ⟨0, by simp [env_zero_accept, hi], Nat.zero_le _⟩
    · exact ⟨d.length, by simp [env_zero_accept, hi], le_refl _⟩
  · intro i d hi
    have : i ≠ 0 := by omega
    simp [env_zero_accept, this]

/-- Witness for C2 (amended): the chunk `[1, 2, 3]` and the sink of
`env_zero_accept`. -/
theorem drain_until_done_or_zero_witness :
    SinkAccepts env_zero_accept ∧
    ∃ evs, write_loop env_zero_accept [1, 2, 3] 3 3 3 State.init =
        (.next, ⟨0, 0, 0 + evs.length, [] ++ evs⟩) ∧
      sinkBytes evs <+: [1, 2, 3] := by
  have hsink : SinkAccepts env_zero_accept := by
    intro i d _
    by_cases hi : i = 0
    · exact ⟨0, by simp [env_zero_accept, hi], Nat.zero_le _⟩
    · exact ⟨d.length, by simp [env_zero_accept, hi], le_refl _⟩
  obtain ⟨evs, h1, _, h3, _⟩ := drain_until_done_or_zero env_zero_accept [1, 2, 3] 3
    State.init (by decide) hsink (by decide)
  exact ⟨hsink, evs, h1, h3⟩

/-- C3 (failing input): two chunks are relayed and the third `read` fails with
`EAGAIN`; the diagnostic is printed, the socket is closed, and `main` returns
`EXIT_SUCCESS`, the status 0. -/
theorem read_failure_returns_success :
    main env_read_timeout 3 =
      (.ret EXIT_SUCCESS, ⟨110, 3, 2,
        [.property_set, .socket_local_client (.fd 3), .setsockopt 3 600 .ok,
          .read 3 (.data [1, 2]), .write 2 [1, 2] (.accepted 2),
          .read 3 (.data [3]), .write 1 [3] (.accepted 1),
          .read 3 (.error 11), .printf (.read_abnormal 110), .close 3]⟩) ∧
    EXIT_SUCCESS = 0 := by
  decide

/-- C4 (failing input): a chunk is read and the `write` fails; `main` returns
`EXIT_FAILURE` and the run has no `close` call. -/
theorem write_failure_skips_close :
    main env_write_fails 2 =
      (.ret EXIT_FAILURE, ⟨32, 1, 1,
        [.property_set, .socket_local_client (.fd 3), .setsockopt 3 600 .ok,
          .read 3 (.data [1, 2, 3]), .write 3 [1, 2, 3] (.error 32),
          .printf (.write_failed 3 3 32)]⟩) ∧
    (main env_write_fails 2).2.trace.countP Event.isClose = 0 := by
  decide

/-- Witness for C5: two failed attempts, then a successful third one. -/
theorem connection_retry_outcome_witness :
    env_two_chunks.argc ≤ 1 ∧ FirstSuccess env_two_chunks 2 3 ∧
    connects (main env_two_chunks 1).2.trace = [.error 111, .error 111, .fd 3] ∧
    Event.read 3 (env_two_chunks.read 0) ∈ (main env_two_chunks 1).2.trace := by
  have hconn : FirstSuccess env_two_chunks 2 3 :=
    ⟨by decide, fun j hj => ⟨111, by interval_cases j <;> rfl⟩, rfl⟩
  have h := (connection_retry_outcome env_two_chunks 1 (by decide)).1 2 3 hconn
  exact ⟨by decide, hconn, h.1.trans (by decide), h.2.2 (by decide)⟩

/-- Witness for C6: the first `write` fails. -/
theorem write_failure_short_circuits_witness :
    (main env_write_fails 2).2.trace =
      [.property_set, .socket_local_client (.fd 3), .setsockopt 3 600 .ok,
        .read 3 (.data [1, 2, 3])] ++
        .write 3 [1, 2, 3] (.error 32) :: [.printf (.write_failed 3 3 32)] ∧
    (main env_write_fails 2).1 = .ret EXIT_FAILURE :=
  ⟨by decide,
    (write_failure_short_circuits env_write_fails 2
      [.property_set, .socket_local_client (.fd 3), .setsockopt 3 600 .ok,
        .read 3 (.data [1, 2, 3])]
      [.printf (.write_failed 3 3 32)] 3 [1, 2, 3] 32 (by decide)).1⟩

/-- C7 (counterexample): when no connection is made, and when the third `read`
fails, the diagnostic is printed with `printf`, on the standard output, and
nothing is printed on the standard error. -/
theorem diagnostic_printed_on_stdout :
    printedStderr (main env_no_service 0).2.trace = [] ∧
    printed (main env_no_service 0).2.trace = [.connect_failed 111] ∧
    printedStderr (main env_read_timeout 3).2.trace = [] ∧
    printed (main env_read_timeout 3).2.trace = [.read_abnormal 110] := by
  decide

/-- Witness for C7 (amended): with no connection nothing is printed on the
standard error and the sink receives no byte; when the third `read` fails the
sink has received the first two chunks. -/
theorem diagnostics_on_stdout_witness :
    env_no_service.argc ≤ 1 ∧ env_read_timeout.argc ≤ 1 ∧
    printedStderr (main env_no_service 0).2.trace = [] ∧
    sinkBytes (main env_no_service 0).2.trace = [] ∧
    sinkBytes (main env_read_timeout 65538).2.trace = [1, 2, 3] := by
  have hall : AllFail env_no_service := fun j _ => ⟨111, rfl⟩
  have hsink : SinkGood env_read_timeout := by
    intro i d hd
    exact ⟨d.length, rfl, List.length_pos.2 hd, le_refl _⟩
  have h := (diagnostics_on_stdout env_read_timeout 65538 (by decide)).2.2.2.2.2 0 3
    [[1, 2], [3]] 11 ⟨by decide, fun j hj => absurd hj (Nat.not_lt_zero j), rfl⟩ hsink
    (by decide)
    (by
      intro i hi
      have hi' : i < 2 := hi
      interval_cases i <;> rfl)
    rfl (by decide)
  exact ⟨by decide, by decide, (diagnostics_on_stdout env_no_service 0 (by decide)).1,
    ((diagnostics_on_stdout env_no_service 0 (by decide)).2.1 hall).2, h⟩

/-- Witness for C8: the first `read` returns zero bytes. -/
theorem end_of_stream_success_witness :
    (main env_idle 1).2.trace =
      [.property_set, .socket_local_client (.fd 3), .setsockopt 3 600 .ok] ++
        .read 3 (.data []) :: [.close 3] ∧
    (main env_idle 1).1 = .ret EXIT_SUCCESS ∧
    ∀ ev ∈ (main env_idle 1).2.trace, ev.isWrite = false := by
  have h := end_of_stream_success env_idle 1 _ _ 3 (by decide :
    (main env_idle 1).2.trace =
      [.property_set, .socket_local_client (.fd 3), .setsockopt 3 600 .ok] ++
        .read 3 (.data []) :: [.close 3])
  exact ⟨by decide, h.1, h.2.2.2 (by decide)⟩

/-- Witness for C9: the third `read` fails with `EAGAIN` and `ETIMEDOUT` is
reported. -/
theorem timeout_remapping_witness :
    (main env_read_timeout 3).2.trace =
      [.property_set, .socket_local_client (.fd 3), .setsockopt 3 600 .ok,
        .read 3 (.data [1, 2]), .write 2 [1, 2] (.accepted 2),
        .read 3 (.data [3]), .write 1 [3] (.accepted 1)] ++
        .read 3 (.error 11) :: [.printf (.read_abnormal 110), .close 3] ∧
    ∃ reported, [Event.printf (.read_abnormal 110), Event.close 3] =
        [.printf (.read_abnormal reported), .close 3] ∧
      (reported = env_read_timeout.ETIMEDOUT ↔
        ((11 : Errno) = env_read_timeout.EAGAIN ∨ (11 : Errno) = env_read_timeout.ETIMEDOUT)) :=
  by
  obtain ⟨r, h1, h2, _⟩ := timeout_remapping env_read_timeout 3 _ _ 3 11 (by decide :
    (main env_read_timeout 3).2.trace =
      [.property_set, .socket_local_client (.fd 3), .setsockopt 3 600 .ok,
        .read 3 (.data [1, 2]), .write 2 [1, 2] (.accepted 2),
        .read 3 (.data [3]), .write 1 [3] (.accepted 1)] ++
        .read 3 (.error 11) :: [.printf (.read_abnormal 110), .close 3])
  exact ⟨by decide, r, h1, h2⟩

/-- Witness for C10: a chunk of three bytes and a sink that accepts all. -/
theorem write_loop_terminates_witness :
    1 ≤ ([1, 2, 3] : List Byte).length ∧
    (∀ i d k, env_idle.write i d = .accepted k → k ≤ d.length) ∧
    (write_loop env_idle [1, 2, 3] 3 3 3 State.init).1 ≠ .out_of_fuel := by
  have hsink : ∀ i d k, env_idle.write i d = .accepted k → k ≤ d.length := by
    intro i d k h
    simp only [env_idle, WriteResult.accepted.injEq] at h
    omega
  exact ⟨by decide, hsink,
    (write_loop_terminates env_idle [1, 2, 3] 3 State.init (by decide) hsink (by decide)).1⟩

end Bugreportz
